import Mathlib

/-!
Verification of the workflow execution engine
(src/services/workflow_engine.py) against its specification.

The engine is shallowly embedded: Python dict/list/str/float/bool/None
values become the inductive type JVal (floats are modelled as rationals,
which is exact for the decimal literals appearing in workflow conditions),
the database session becomes an explicit EngineState record threaded
through every operation, datetime.now() becomes a logical clock, and the
external capabilities (AgentExecutor.execute_agent, MCPClient.execute_tool,
the aiohttp request) become call-indexed oracles.  The unbounded recursion
in the retry logic of _execute_agent_step / _execute_mcp_tool_step is made
total with an explicit fuel parameter; running out of fuel is reported by
the distinguished result Res.timeout, which no embedded code path ever
produces by itself.  asyncio execution of parallel sub-steps is serialized
in declaration order (the single-threaded event loop interleaves only at
await points; none of the claims under verification concern interleaving).
-/

set_option maxRecDepth 4000

namespace WfEngine

/-- JSON-like runtime values of the engine (Python dict / list / str /
float / bool / None).  Numbers are modelled as rationals; dicts as
association lists in insertion order. -/
inductive JVal where
  | null : JVal
  | bool (b : Bool) : JVal
  | num (q : ℚ) : JVal
  | str (s : String) : JVal
  | arr (items : List JVal) : JVal
  | obj (fields : List (String × JVal)) : JVal
  deriving Inhabited

/-- Python dict.get on an association list: a missing key yields None
(JSON null), exactly as json-decoded Python dicts behave. -/
def objGet : List (String × JVal) → String → JVal
  | [], _ => .null
  | (k, v) :: rest, key => if k = key then v else objGet rest key

/-- Python dict assignment d[k] = v: replaces the value of an existing key
in place, otherwise appends (insertion order is preserved). -/
def setKey : List (String × JVal) → String → JVal → List (String × JVal)
  | [], k, v => [(k, v)]
  | (k0, v0) :: rest, k, v =>
    if k0 = k then (k, v) :: rest else (k0, v0) :: setKey rest k v

/-- Decimal rendering of a rational for template substitution.  Python
str() of a float prints a decimal expansion; the engine theorems never
depend on the exact digits, only on strings being substituted at all. -/
def ratStr (q : ℚ) : String :=
  if q.den = 1 then toString q.num ++ ".0"
  else toString q.num ++ "/" ++ toString q.den

mutual

/-- Python str(value) as used by template substitution
(_resolve_template_string).  Container rendering abbreviates the exact
repr-based quoting of nested strings, which no claim exercises. -/
def pyStr : JVal → String
  | .null => "None"
  | .bool true => "True"
  | .bool false => "False"
  | .num q => ratStr q
  | .str s => s
  | .arr items => "[" ++ pyStrItems items ++ "]"
  | .obj fields => "\x7b" ++ pyStrFields fields ++ "\x7d"

def pyStrItems : List JVal → String
  | [] => ""
  | [x] => pyStr x
  | x :: xs => pyStr x ++ ", " ++ pyStrItems xs

def pyStrFields : List (String × JVal) → String
  | [] => ""
  | [(k, v)] => k ++ ": " ++ pyStr v
  | (k, v) :: kvs => k ++ ": " ++ pyStr v ++ ", " ++ pyStrFields kvs

end

/-- Numeric view used by Python comparisons: bool is an int subtype, so
True compares as 1 and False as 0.  (Rationals are built with the core
constructors mkRat / Rat.blt throughout so that every theorem about them
evaluates inside the kernel.) -/
def asNum : JVal → Option ℚ
  | .num q => some q
  | .bool b => some (if b then mkRat 1 1 else mkRat 0 1)
  | _ => none

mutual

/-- Python == on engine values (condition evaluation compares the looked-up
context value against the parsed literal).  Mixed bool/number equality
follows the int-subtype rule; values of unrelated types are unequal.
Dict equality is modelled as ordered field equality: the engine only ever
compares against scalar literals, so dict-vs-dict equality is unreachable
from the embedded code. -/
def pyEq : JVal → JVal → Bool
  | .null, .null => true
  | .str s, .str t => s = t
  | .arr xs, .arr ys => pyEqItems xs ys
  | .obj fs, .obj gs => pyEqFields fs gs
  | a, b =>
    match asNum a, asNum b with
    | some x, some y => x = y
    | _, _ => false

def pyEqItems : List JVal → List JVal → Bool
  | [], [] => true
  | x :: xs, y :: ys => pyEq x y && pyEqItems xs ys
  | _, _ => false

def pyEqFields : List (String × JVal) → List (String × JVal) → Bool
  | [], [] => true
  | (k, v) :: fs, (k2, v2) :: gs => k = k2 && pyEq v v2 && pyEqFields fs gs
  | _, _ => false

end

/-- Errors raised by _evaluate_condition: ValueError on a condition that
does not match the regex, ValueError on an operator outside the six known
ones, and TypeError from an order comparison on incompatible types. -/
inductive CondErr where
  | invalidFormat (condition : String)
  | unknownOp (op : String)
  | typeErr
  deriving DecidableEq, Inhabited, Repr

/-- Rendering of a CondErr as the str(e) of the Python exception. -/
def condErrMsg : CondErr → String
  | .invalidFormat c => "Invalid condition format: " ++ c
  | .unknownOp op => "Unknown operator: " ++ op
  | .typeErr => "TypeError: unsupported comparison"

/-- Python < on engine values: numbers (with bool as int) and strings
compare; None or mixed scalar types raise TypeError.  List-vs-list
lexicographic ordering is folded into the TypeError case: condition
literals are always scalars, so it is unreachable from the embedded
code. -/
def pyLt (a b : JVal) : Except CondErr Bool :=
  match asNum a, asNum b with
  | some x, some y => .ok (Rat.blt x y)
  | _, _ =>
    match a, b with
    | .str s, .str t => .ok (decide (s < t))
    | _, _ => .error .typeErr

/-- Python > (mirror image of <). -/
def pyGt (a b : JVal) : Except CondErr Bool :=
  match asNum a, asNum b with
  | some x, some y => .ok (Rat.blt y x)
  | _, _ =>
    match a, b with
    | .str s, .str t => .ok (decide (t < s))
    | _, _ => .error .typeErr

/-- Python <=. -/
def pyLe (a b : JVal) : Except CondErr Bool :=
  match asNum a, asNum b with
  | some x, some y => .ok (!Rat.blt y x)
  | _, _ =>
    match a, b with
    | .str s, .str t => .ok (decide (s < t) || decide (s = t))
    | _, _ => .error .typeErr

/-- Python >=. -/
def pyGe (a b : JVal) : Except CondErr Bool :=
  match asNum a, asNum b with
  | some x, some y => .ok (!Rat.blt x y)
  | _, _ =>
    match a, b with
    | .str s, .str t => .ok (decide (t < s) || decide (s = t))
    | _, _ => .error .typeErr

/-- Whitespace characters matched by Python regex \s and str.strip(). -/
def isPySpace (c : Char) : Bool :=
  c = ' ' || c = '\t' || c = '\n' || c = '\r' || c = '\x0b' || c = '\x0c'

/-- Characters of the regex class [><=!]. -/
def isOpChar (c : Char) : Bool :=
  c = '>' || c = '<' || c = '=' || c = '!'

/-- Python str.strip(): remove leading and trailing whitespace. -/
def pyStrip (s : String) : String :=
  ⟨((s.toList.dropWhile isPySpace).reverse.dropWhile isPySpace).reverse⟩

/-- Decimal digit accumulation shared by the numeric parsers. -/
def digitsToNat (l : List Char) : Nat :=
  l.foldl (fun acc c => acc * 10 + (c.toNat - 48)) 0

/-! Kernel-evaluable counterparts of the Python string operations the
engine uses (the corresponding core String functions are compiled by
well-founded recursion over byte positions and do not reduce inside the
kernel). -/

/-- Python var_name.split(".") over the character list. -/
def splitDotsAux : List Char → List Char → List String
  | [], acc => [⟨acc.reverse⟩]
  | '.' :: rest, acc => (⟨acc.reverse⟩ : String) :: splitDotsAux rest []
  | c :: rest, acc => splitDotsAux rest (c :: acc)

def splitDots (s : String) : List String :=
  splitDotsAux s.toList []

/-- Python s.startswith(pfx). -/
def strStartsWith (s pfx : String) : Bool :=
  pfx.toList.isPrefixOf s.toList

/-- Python s.endswith(sfx). -/
def strEndsWith (s sfx : String) : Bool :=
  sfx.toList.reverse.isPrefixOf s.toList.reverse

/-- Python s.lower() (ASCII, which is all the engine compares). -/
def strToLower (s : String) : String :=
  ⟨s.toList.map Char.toLower⟩

/-- Python int(s) for the count:N wait policy, none when it raises. -/
def parseNat (s : String) : Option Nat :=
  if !s.toList.isEmpty && s.toList.all Char.isDigit then some (digitsToNat s.toList)
  else none

/-! ### The condition regex

_evaluate_condition applies
  re.match( backslash-dollar backslash-dot (S+) s* ([><=!]+) s* (.+) , condition.strip())
The following functions reproduce that match, including the backtracking
order of the regex engine: the path group S+ prefers the longest non-space
run, the operator group prefers the longest run of [><=!], the whitespace
between operator and value prefers the longest run, and the value group .+
takes everything up to the next newline (re.match does not anchor the end
of the string). -/

/-- Match (.+) at the given position: at least one character, stopping at
the first newline. -/
def matchDotPlus (r : List Char) : Option (List Char) :=
  match r with
  | [] => none
  | c :: _ => if c = '\n' then none else some (r.takeWhile (fun x => x != '\n'))

/-- Try the whitespace run before the value group at length n, then
backtrack to shorter runs. -/
def tryWsRest : Nat → List Char → Option (List Char)
  | 0, r => matchDotPlus r
  | n + 1, r =>
    match matchDotPlus (r.drop (n + 1)) with
    | some v => some v
    | none => tryWsRest n r

/-- Try the operator group at length n (greedy first), then backtrack. -/
def tryOpRest (r1 : List Char) : Nat → Option (List Char × List Char)
  | 0 => none
  | n + 1 =>
    let r2 := r1.drop (n + 1)
    match tryWsRest (r2.takeWhile isPySpace).length r2 with
    | some v => some (r1.take (n + 1), v)
    | none => tryOpRest r1 n

/-- Match s* ([><=!]+) s* (.+) after the path group.  The first s* is
deterministic: whitespace and operator characters are disjoint. -/
def matchAfterPath (rest : List Char) : Option (List Char × List Char) :=
  let r1 := rest.dropWhile isPySpace
  tryOpRest r1 (r1.takeWhile isOpChar).length

/-- Try path group lengths from longest to shortest (pathRev holds the
candidate path reversed; shrinking moves its last character back onto the
remainder). -/
def tryPath : List Char → List Char → Option (String × String × String)
  | pathRev, rest =>
    match matchAfterPath rest with
    | some (op, v) => some (⟨pathRev.reverse⟩, ⟨op⟩, ⟨v⟩)
    | none =>
      match pathRev with
      | [] => none
      | [_] => none
      | c :: more => tryPath more (c :: rest)

/-- The full regex match on the stripped condition string, returning the
three captured groups (path, operator, value) or none. -/
def matchCondition (s : String) : Option (String × String × String) :=
  match s.toList with
  | '$' :: '.' :: rest =>
    let ns := rest.takeWhile (fun c => !isPySpace c)
    if ns.isEmpty then none
    else tryPath ns.reverse (rest.drop ns.length)
  | _ => none

/-- Python float() on a stripped literal string: optional sign, decimal
digits with optional fraction part, optional exponent; the whole string
must be consumed.  (The inf/nan/underscore forms Python also accepts have
no rational counterpart and are left to the string fallback.) -/

def parseExponent (l : List Char) : Option Int :=
  match l with
  | [] => some 0
  | e :: rest =>
    if e = 'e' || e = 'E' then
      match rest with
      | '+' :: ds => if ds ≠ [] && ds.all Char.isDigit then some (digitsToNat ds) else none
      | '-' :: ds => if ds ≠ [] && ds.all Char.isDigit then some (-(digitsToNat ds : Int)) else none
      | ds => if ds ≠ [] && ds.all Char.isDigit then some (digitsToNat ds) else none
    else none

def parseFloatQ (s : String) : Option ℚ :=
  let l := s.toList
  let signAndRest : Bool × List Char :=
    match l with
    | '+' :: r => (false, r)
    | '-' :: r => (true, r)
    | r => (false, r)
  let neg := signAndRest.1
  let l1 := signAndRest.2
  let ip := l1.takeWhile Char.isDigit
  let l2 := l1.drop ip.length
  let fracAndRest : List Char × List Char :=
    match l2 with
    | '.' :: r => (r.takeWhile Char.isDigit, r.drop (r.takeWhile Char.isDigit).length)
    | r => ([], r)
  let frac := fracAndRest.1
  let l3 := fracAndRest.2
  if ip.length + frac.length = 0 then none
  else
    match parseExponent l3 with
    | none => none
    | some ex =>
      let mantissa : Nat := digitsToNat (ip ++ frac) * Nat.pow 10 ex.toNat
      let den : Nat := Nat.pow 10 frac.length * Nat.pow 10 (-ex).toNat
      let num : Int := if neg then -(mantissa : Int) else (mantissa : Int)
      some (mkRat num den)

/-- Conversion of the value group into the expected comparison value
(_evaluate_condition lines 672-684): the case-folded words true/false/null,
then a double-quoted string, then float(), falling back to the bare string
when float() raises. -/
def parseLiteral (s : String) : JVal :=
  if strToLower s = "true" then .bool true
  else if strToLower s = "false" then .bool false
  else if strToLower s = "null" then .null
  else if strStartsWith s "\x22" && strEndsWith s "\x22" then .str ((s.drop 1).dropRight 1)
  else
    match parseFloatQ s with
    | some q => .num q
    | none => .str s

/-- The dotted-path walk of _evaluate_condition (also reused by
_apply_output_mapping, which has the identical loop): descend through
dicts; a non-dict in the middle of the path yields None. -/
def condLookup : JVal → List String → JVal
  | v, [] => v
  | .obj fs, p :: ps => condLookup (objGet fs p) ps
  | _, _ :: _ => .null

/-- Operator dispatch of _evaluate_condition lines 686-700. -/
def applyCondOp (op : String) (actual expected : JVal) : Except CondErr Bool :=
  if op = ">" then pyGt actual expected
  else if op = "<" then pyLt actual expected
  else if op = ">=" then pyGe actual expected
  else if op = "<=" then pyLe actual expected
  else if op = "==" then .ok (pyEq actual expected)
  else if op = "!=" then .ok (!pyEq actual expected)
  else .error (.unknownOp op)

/-- _evaluate_condition(condition, context): regex parse of the stripped
condition, dotted lookup of the left operand in the context, literal
conversion of the right operand, then operator dispatch. -/
def evalCondition (condition : String) (context : JVal) : Except CondErr Bool :=
  match matchCondition (pyStrip condition) with
  | none => .error (.invalidFormat condition)
  | some (path, op, valueStr) =>
    let actual := condLookup context (splitDots path)
    let expected := parseLiteral (pyStrip valueStr)
    applyCondOp op actual expected

/-! ### Template resolution -/

/-- The dotted lookup of replace_var inside _resolve_template_string:
descend through dicts; some rendered string when the final value is not
None, none (keep the original placeholder text) when the path hits a
non-dict mid-way or resolves to None. -/
def templLookup : JVal → List String → Option String
  | .null, [] => none
  | v, [] => some (pyStr v)
  | .obj fs, p :: ps => templLookup (objGet fs p) ps
  | _, _ :: _ => none

/-- replace_var on one matched placeholder: substitute the stringified
value, or reproduce match.group(0) verbatim when the path does not
resolve. -/
def replaceVar (context : List (String × JVal)) (content : List Char) : List Char :=
  match templLookup (.obj context) (splitDots (⟨content⟩ : String)) with
  | some s => s.toList
  | none => '\x7b' :: content ++ ['\x7d']

/-- Length bound used for termination of the template scan (kept as a def
so that the file lists all definitions before the theorems). -/
def length_dropWhile_le_char (p : Char → Bool) (l : List Char) :
    (l.dropWhile p).length ≤ l.length := by
  induction l with
  | nil => simp
  | cons a l ih =>
    by_cases h : p a
    · simp only [List.dropWhile, h, List.length_cons]
      omega
    · simp [List.dropWhile, h]

/-- re.sub of the pattern  backslash-openbrace ([^closebrace]+)
backslash-closebrace  over the template, calling replace_var on each match:
scan left to right; at an opening brace, a match needs at least one
non-closing-brace character followed by a closing brace; on failure the
scan advances one character. -/
def substTemplate (context : List (String × JVal)) : List Char → List Char
  | [] => []
  | c :: rest =>
    if c = '\x7b' ∧ rest.takeWhile (fun x => x != '\x7d') ≠ [] ∧
        rest.dropWhile (fun x => x != '\x7d') ≠ [] then
      replaceVar context (rest.takeWhile (fun x => x != '\x7d')) ++
        substTemplate context (rest.dropWhile (fun x => x != '\x7d')).tail
    else
      c :: substTemplate context rest
  termination_by l => l.length
  decreasing_by
  all_goals simp_wf
  rename_i tail0 _h0
  have h1 := length_dropWhile_le_char (fun x => x != '\x7d') tail0
  omega

/-- _resolve_template_string(template, context). -/
def resolveTemplateString (template : String) (context : List (String × JVal)) : String :=
  ⟨substTemplate context template.toList⟩

mutual

/-- _resolve_template_vars(data, context): deep walk resolving strings,
recursing through dicts and lists, passing other scalars through. -/
def resolveTemplateVars (context : List (String × JVal)) : JVal → JVal
  | .obj fs => .obj (resolveTemplateFields context fs)
  | .arr xs => .arr (resolveTemplateItems context xs)
  | .str s => .str (resolveTemplateString s context)
  | v => v

def resolveTemplateFields (context : List (String × JVal)) :
    List (String × JVal) → List (String × JVal)
  | [] => []
  | (k, v) :: rest => (k, resolveTemplateVars context v) :: resolveTemplateFields context rest

def resolveTemplateItems (context : List (String × JVal)) : List JVal → List JVal
  | [] => []
  | x :: xs => resolveTemplateVars context x :: resolveTemplateItems context xs

end

/-! ### Output mapping -/

/-- Python data.get(path) in the non-JSONPath branch of
_apply_output_mapping; the engine only ever passes dicts as data. -/
def dictGet : JVal → String → JVal
  | .obj fs, k => objGet fs k
  | _, _ => .null

/-- _apply_output_mapping(data, mapping): for each output key, either a
JSONPath-lite dollar-dot dotted extraction from data (the same walk as
condition lookup) or a direct key read; results are assembled into a
fresh dict in mapping order. -/
def applyOutputMapping (data : JVal) (mapping : List (String × String)) : JVal :=
  .obj (mapping.foldl
    (fun acc kv =>
      let value :=
        if strStartsWith kv.2 "$." then condLookup data (splitDots (kv.2.drop 2))
        else dictGet data kv.2
      setKey acc kv.1 value)
    [])

/-! ### Data model

The persistent rows touched by the engine.  Ids are natural numbers drawn
from a single per-state counter (uuid4 values are globally fresh; a
monotone counter gives the same freshness).  Timestamps come from a
logical clock that ticks at each datetime.now() call. -/

/-- One WorkflowStepExecution row. -/
structure StepRec where
  id : Nat
  execId : Nat
  stepName : String
  stepType : String
  status : String
  inputData : JVal
  outputData : Option JVal
  errorMessage : Option String
  retryCount : Nat
  startedAt : Nat
  completedAt : Option Nat
  durationSeconds : Option Nat
  deriving Inhabited

/-- One WorkflowExecution row.  The context column holds the extra context
passed at invocation. -/
structure ExecRec where
  id : Nat
  tenantId : Nat
  workflowId : Nat
  status : String
  currentStep : String
  inputData : JVal
  contextData : List (String × JVal)
  outputData : Option (List (String × JVal))
  errorMessage : Option String
  startedAt : Nat
  completedAt : Option Nat
  durationSeconds : Option Nat
  deriving Inhabited

/-- One AgentTask row (only the fields the claims can observe). -/
structure TaskRec where
  id : Nat
  agentId : Nat
  status : String
  errorMessage : Option String
  deriving Inhabited

/-- A workflow step definition: the tagged dict from the workflow steps
JSON.  Absent optional keys are Option.none; the other constructor stands
for a dict whose type tag is none of the five known ones (or missing). -/
inductive StepDef where
  | agent (name : Option String) (agentId : Nat) (input : JVal)
      (outputMapping : Option (List (String × String))) (maxRetries : Option Nat)
  | mcpTool (name : Option String) (serverId : Nat) (toolName : String)
      (input : JVal) (maxRetries : Option Nat)
  | http (name : Option String) (method : String) (url : String)
      (headers : JVal) (body : JVal)
  | parallel (name : Option String) (steps : List StepDef) (waitFor : Option String)
  | conditional (name : Option String) (condition : Option String)
      (ifTrue : Option StepDef) (ifFalse : Option StepDef)
  | other (name : Option String) (ty : Option String)

/-- step.get("name", "unnamed_step"). -/
def StepDef.nameField : StepDef → Option String
  | .agent n .. => n
  | .mcpTool n .. => n
  | .http n .. => n
  | .parallel n .. => n
  | .conditional n .. => n
  | .other n _ => n

def StepDef.nameD (s : StepDef) : String :=
  s.nameField.getD "unnamed_step"

/-- step.get("type") as rendered inside the unknown-step-type message. -/
def StepDef.typeTagStr : StepDef → String
  | .agent .. => "agent"
  | .mcpTool .. => "mcp_tool"
  | .http .. => "http"
  | .parallel .. => "parallel"
  | .conditional .. => "conditional"
  | .other _ (some t) => t
  | .other _ none => "None"

/-- One Workflow row. -/
structure WorkflowRow where
  id : Nat
  tenantId : Nat
  status : String
  deleted : Bool
  steps : List StepDef

/-- The database session state threaded through the engine, together with
the logical clock and the call counters of the external capabilities. -/
structure EngineState where
  workflows : List WorkflowRow
  executions : List ExecRec
  stepRecs : List StepRec
  tasks : List TaskRec
  nextId : Nat
  clock : Nat
  agentCalls : Nat
  toolCalls : Nat
  httpCalls : Nat

/-- The external capabilities, indexed by call number: the outcome of
AgentExecutor.execute_agent (text or raised error), of
MCPClient.execute_tool (result dict or raised error), and of the aiohttp
request (result dict or raised error).  The call index models everything
the real call depends on; the engine never inspects more than the
outcome. -/
structure Oracles where
  agent : Nat → Except String String
  tool : Nat → Except String JVal
  http : Nat → Except String JVal

/-- Result of an embedded engine operation: a returned value, a raised
exception rendered by str(e), or fuel exhaustion (a model artifact marking
non-termination of the source). -/
inductive Res (α : Type) where
  | ok (a : α)
  | err (msg : String)
  | timeout
  deriving Inhabited

/-- datetime.now(): read the logical clock and tick it. -/
def EngineState.now (st : EngineState) : Nat × EngineState :=
  (st.clock, { st with clock := st.clock + 1 })

/-- Create a WorkflowStepExecution row (status running, retry_count 0,
started_at now) and commit it; returns its fresh id. -/
def EngineState.newStepRec (st : EngineState) (execId : Nat) (stepName stepType : String)
    (input : JVal) : Nat × EngineState :=
  let t := st.now
  let r : StepRec :=
    { id := t.2.nextId, execId := execId, stepName := stepName, stepType := stepType
      status := "running", inputData := input, outputData := none, errorMessage := none
      retryCount := 0, startedAt := t.1, completedAt := none, durationSeconds := none }
  (t.2.nextId,
   { t.2 with stepRecs := t.2.stepRecs ++ [r], nextId := t.2.nextId + 1 })

/-- Create an AgentTask row (status in_progress) and commit it. -/
def EngineState.newTask (st : EngineState) (agentId : Nat) : Nat × EngineState :=
  let r : TaskRec := { id := st.nextId, agentId := agentId, status := "in_progress",
                       errorMessage := none }
  (st.nextId, { st with tasks := st.tasks ++ [r], nextId := st.nextId + 1 })

def EngineState.updateStepRec (st : EngineState) (sid : Nat) (f : StepRec → StepRec) :
    EngineState :=
  { st with stepRecs := st.stepRecs.map (fun r => if r.id = sid then f r else r) }

def EngineState.updateTask (st : EngineState) (tid : Nat) (f : TaskRec → TaskRec) :
    EngineState :=
  { st with tasks := st.tasks.map (fun r => if r.id = tid then f r else r) }

def EngineState.updateExec (st : EngineState) (eid : Nat) (f : ExecRec → ExecRec) :
    EngineState :=
  { st with executions := st.executions.map (fun r => if r.id = eid then f r else r) }

/-- Re-read a step row by id (db.refresh). -/
def EngineState.findStepD (st : EngineState) (sid : Nat) : StepRec :=
  (st.stepRecs.find? (fun r => r.id = sid)).getD default

/-- Re-read an execution row by id (db.refresh). -/
def EngineState.findExecD (st : EngineState) (eid : Nat) : ExecRec :=
  (st.executions.find? (fun r => r.id = eid)).getD default

/-- Mark a step row completed with output and timing. -/
def markStepCompleted (st : EngineState) (sid : Nat) (out : JVal) : EngineState :=
  let t := st.now
  t.2.updateStepRec sid (fun r =>
    { r with status := "completed", outputData := some out,
             completedAt := some t.1, durationSeconds := some (t.1 - r.startedAt) })

/-- Mark a step row failed with error message and timing. -/
def markStepFailed (st : EngineState) (sid : Nat) (msg : String) : EngineState :=
  let t := st.now
  t.2.updateStepRec sid (fun r =>
    { r with status := "failed", errorMessage := some msg,
             completedAt := some t.1, durationSeconds := some (t.1 - r.startedAt) })

/-! ### Step executors -/

/-- _execute_agent_step: create the step row, resolve the input, create
the AgentTask, run the agent (template resolution feeds the instruction;
the oracle models the load-and-execute outcome), record success as
response plus task_id with optional output mapping, or record failure and
apply the retry logic: while retry_count of the current row is below
step.get("max_retries", 0), increment it and re-enter the executor from
the top — which creates a brand-new row whose retry_count starts at 0. -/
def execAgentStep (oc : Oracles) (execId : Nat) (name : Option String) (agentId : Nat)
    (input : JVal) (outputMapping : Option (List (String × String)))
    (maxRetries : Option Nat) (ctx : List (String × JVal)) :
    Nat → EngineState → Res JVal × EngineState
  | 0, st => (.timeout, st)
  | fuel + 1, st =>
    let stepName := name.getD "unnamed_step"
    let c := st.newStepRec execId stepName "agent" input
    let sid := c.1
    let st1 := c.2
    let _resolvedInput := resolveTemplateVars ctx input
    let c2 := st1.newTask agentId
    let tid := c2.1
    let st2 := c2.2
    let outcome := oc.agent st2.agentCalls
    let st3 := { st2 with agentCalls := st2.agentCalls + 1 }
    match outcome with
    | .ok text =>
      let st4 := st3.updateTask tid (fun t => { t with status := "completed" })
      let wrapped : JVal :=
        .obj [("response", .str text), ("task_id", .str (toString tid))]
      let st5 := markStepCompleted st4 sid wrapped
      let output :=
        match outputMapping with
        | some m => applyOutputMapping wrapped m
        | none => wrapped
      (.ok output, st5)
    | .error e =>
      let st4 := st3.updateTask tid
        (fun t => { t with status := "failed", errorMessage := some e })
      let st5 := markStepFailed st4 sid e
      if (st5.findStepD sid).retryCount < maxRetries.getD 0 then
        let st6 := st5.updateStepRec sid (fun r => { r with retryCount := r.retryCount + 1 })
        execAgentStep oc execId name agentId input outputMapping maxRetries ctx fuel st6
      else
        (.err e, st5)

/-- _execute_mcp_tool_step: same shape as the agent step without the
AgentTask, returning the raw tool result, with the identical retry
logic. -/
def execMcpToolStep (oc : Oracles) (execId : Nat) (name : Option String) (serverId : Nat)
    (toolName : String) (input : JVal) (maxRetries : Option Nat)
    (ctx : List (String × JVal)) : Nat → EngineState → Res JVal × EngineState
  | 0, st => (.timeout, st)
  | fuel + 1, st =>
    let stepName := name.getD "unnamed_step"
    let c := st.newStepRec execId stepName "mcp_tool" input
    let sid := c.1
    let st1 := c.2
    let _resolvedInput := resolveTemplateVars ctx input
    let outcome := oc.tool st1.toolCalls
    let st2 := { st1 with toolCalls := st1.toolCalls + 1 }
    match outcome with
    | .ok result => (.ok result, markStepCompleted st2 sid result)
    | .error e =>
      let st3 := markStepFailed st2 sid e
      if (st3.findStepD sid).retryCount < maxRetries.getD 0 then
        let st4 := st3.updateStepRec sid (fun r => { r with retryCount := r.retryCount + 1 })
        execMcpToolStep oc execId name serverId toolName input maxRetries ctx fuel st4
      else
        (.err e, st3)

/-- _execute_http_step: create the step row (input_data is the step dict
itself), resolve url, headers and body, issue the request through the
oracle, and record the outcome.  No retry logic exists for http steps. -/
def execHttpStep (oc : Oracles) (execId : Nat) (name : Option String) (method url : String)
    (headers body : JVal) (ctx : List (String × JVal)) (st : EngineState) :
    Res JVal × EngineState :=
  let stepName := name.getD "unnamed_step"
  let stepDict : JVal := .obj [("method", .str method), ("url", .str url),
                               ("headers", headers), ("body", body)]
  let c := st.newStepRec execId stepName "http" stepDict
  let sid := c.1
  let st1 := c.2
  let _url := resolveTemplateString url ctx
  let _headers := resolveTemplateVars ctx headers
  let _body := resolveTemplateVars ctx body
  let outcome := oc.http st1.httpCalls
  let st2 := { st1 with httpCalls := st1.httpCalls + 1 }
  match outcome with
  | .ok result => (.ok result, markStepCompleted st2 sid result)
  | .error e => (.err e, markStepFailed st2 sid e)

/-- _execute_single_step, the dispatch helper used for the nested steps of
parallel groups and conditional branches: it knows only the agent,
mcp_tool and http step kinds; every other type tag — including parallel
and conditional — raises Unknown step type. -/
def execSingleStep (oc : Oracles) (execId : Nat) (ctx : List (String × JVal)) (fuel : Nat)
    (st : EngineState) : StepDef → Res JVal × EngineState
  | .agent name agentId input om mr =>
    execAgentStep oc execId name agentId input om mr ctx fuel st
  | .mcpTool name serverId toolName input mr =>
    execMcpToolStep oc execId name serverId toolName input mr ctx fuel st
  | .http name method url headers body =>
    execHttpStep oc execId name method url headers body ctx st
  | s => (.err ("Unknown step type: " ++ s.typeTagStr), st)

/-- asyncio.gather(..., return_exceptions=True) over the sub-steps of a
parallel group, serialized in declaration order: every task runs, raised
errors are captured as values. -/
def runParallelTasks (oc : Oracles) (execId : Nat) (ctx : List (String × JVal)) (fuel : Nat) :
    List StepDef → EngineState → Res (List (Except String JVal)) × EngineState
  | [], st => (.ok [], st)
  | s :: rest, st =>
    match execSingleStep oc execId ctx fuel st s with
    | (.ok v, st1) =>
      match runParallelTasks oc execId ctx fuel rest st1 with
      | (.ok results, st2) => (.ok (.ok v :: results), st2)
      | other => other
    | (.err e, st1) =>
      match runParallelTasks oc execId ctx fuel rest st1 with
      | (.ok results, st2) => (.ok (.error e :: results), st2)
      | other => other
    | (.timeout, st1) => (.timeout, st1)

/-- The first-N wait policies (asyncio.wait with FIRST_COMPLETED under the
declaration-order serialization): run tasks until n have completed; the
list comprehension [task.result() for task in done] re-raises the first
captured exception. -/
def runFirstN (oc : Oracles) (execId : Nat) (ctx : List (String × JVal)) (fuel : Nat) :
    Nat → List StepDef → EngineState → Res (List JVal) × EngineState
  | _, [], st => (.ok [], st)
  | 0, _, st => (.ok [], st)
  | n + 1, s :: rest, st =>
    match execSingleStep oc execId ctx fuel st s with
    | (.ok v, st1) =>
      match runFirstN oc execId ctx fuel n rest st1 with
      | (.ok vs, st2) => (.ok (v :: vs), st2)
      | other => other
    | (.err e, st1) => (.err e, st1)
    | (.timeout, st1) => (.timeout, st1)

/-- Combination of gather results into the parallel output dict: keys are
the positional index within the full result list, entries whose result is
an exception are skipped. -/
def combineParallel (results : List (Except String JVal)) : JVal :=
  .obj (results.enum.filterMap (fun p =>
    match p.2 with
    | .ok v => some ("step_" ++ toString p.1, v)
    | .error _ => none))

/-- Rendering of the aggregate error list inside the message of
  raise Exception(f"Parallel execution failed: ...").
Python prints the repr list of exception objects; the model keeps the
messages. -/
def renderErrors (errors : List String) : String :=
  "[" ++ String.intercalate ", " errors ++ "]"

/-- _execute_parallel_step: create the step row, launch one task per
nested step through _execute_single_step, apply the wait policy, combine
positional outputs, and under wait_for=all raise the aggregate error when
any task errored.  The any and count:N policies are modelled under the
declaration-order serialization of the event loop; asyncio.wait on an
empty task set raises. -/
def execParallelStep (oc : Oracles) (execId : Nat) (name : Option String)
    (steps : List StepDef) (waitFor : Option String) (ctx : List (String × JVal))
    (fuel : Nat) (st : EngineState) : Res JVal × EngineState :=
  let stepName := name.getD "unnamed_step"
  let wf := waitFor.getD "all"
  let c := st.newStepRec execId stepName "parallel" (.obj [("wait_for", .str wf)])
  let sid := c.1
  let st1 := c.2
  if wf = "all" then
    match runParallelTasks oc execId ctx fuel steps st1 with
    | (.timeout, st2) => (.timeout, st2)
    | (.err e, st2) => (.err e, st2)
    | (.ok results, st2) =>
      let output := combineParallel results
      let errors := results.filterMap (fun r =>
        match r with | .error e => some e | .ok _ => none)
      if errors ≠ [] then
        let msg := "Parallel execution failed: " ++ renderErrors errors
        (.err msg, markStepFailed st2 sid msg)
      else
        (.ok output, markStepCompleted st2 sid output)
  else if wf = "any" then
    match steps with
    | [] =>
      let msg := "Set of Tasks/Futures is empty"
      (.err msg, markStepFailed st1 sid msg)
    | s :: _ =>
      match execSingleStep oc execId ctx fuel st1 s with
      | (.timeout, st2) => (.timeout, st2)
      | (.err e, st2) => (.err e, markStepFailed st2 sid e)
      | (.ok v, st2) =>
        let output := combineParallel [.ok v]
        (.ok output, markStepCompleted st2 sid output)
  else if strStartsWith wf "count:" then
    match steps with
    | [] =>
      let msg := "Set of Tasks/Futures is empty"
      (.err msg, markStepFailed st1 sid msg)
    | _ :: _ =>
      let n := max ((parseNat (wf.drop 6)).getD 0) 1
      match runFirstN oc execId ctx fuel n steps st1 with
      | (.timeout, st2) => (.timeout, st2)
      | (.err e, st2) => (.err e, markStepFailed st2 sid e)
      | (.ok vs, st2) =>
        let output := combineParallel (vs.map .ok)
        (.ok output, markStepCompleted st2 sid output)
  else
    match runParallelTasks oc execId ctx fuel steps st1 with
    | (.timeout, st2) => (.timeout, st2)
    | (.err e, st2) => (.err e, st2)
    | (.ok results, st2) =>
      let output := combineParallel results
      (.ok output, markStepCompleted st2 sid output)

/-- _execute_conditional_step: create the step row, evaluate the
condition against the context, execute the resolved branch through
_execute_single_step (or produce the skipped marker when the branch is
absent), and record the wrapper dict with condition_result, branch_taken
and result — which is also the returned step output. -/
def execConditionalStep (oc : Oracles) (execId : Nat) (name : Option String)
    (condition : Option String) (ifTrue ifFalse : Option StepDef)
    (ctx : List (String × JVal)) (fuel : Nat) (st : EngineState) :
    Res JVal × EngineState :=
  let stepName := name.getD "unnamed_step"
  let cond := condition.getD ""
  let c := st.newStepRec execId stepName "conditional" (.obj [("condition", .str cond)])
  let sid := c.1
  let st1 := c.2
  match evalCondition cond (.obj ctx) with
  | .error e =>
    let msg := condErrMsg e
    (.err msg, markStepFailed st1 sid msg)
  | .ok b =>
    let branch := if b then ifTrue else ifFalse
    let branchName := if b then "true" else "false"
    match branch with
    | some bs =>
      match execSingleStep oc execId ctx fuel st1 bs with
      | (.timeout, st2) => (.timeout, st2)
      | (.err e, st2) => (.err e, markStepFailed st2 sid e)
      | (.ok result, st2) =>
        let output : JVal := .obj [("condition_result", .bool b),
                                   ("branch_taken", .str branchName),
                                   ("result", result)]
        (.ok output, markStepCompleted st2 sid output)
    | none =>
      let result : JVal := .obj [("skipped", .bool true), ("branch", .str branchName)]
      let output : JVal := .obj [("condition_result", .bool b),
                                 ("branch_taken", .str branchName),
                                 ("result", result)]
      (.ok output, markStepCompleted st1 sid output)

/-- _execute_steps: walk the top-level step list, recording current_step
on the execution row, dispatching on the type tag (an unknown tag
raises), and assigning each result into the workflow context under the
step name.  Returns the final context, which becomes output_data. -/
def execSteps (oc : Oracles) (fuel : Nat) (execId : Nat) :
    List StepDef → List (String × JVal) → EngineState →
    Res (List (String × JVal)) × EngineState
  | [], ctx, st => (.ok ctx, st)
  | step :: rest, ctx, st =>
    let stepName := step.nameD
    let st1 := st.updateExec execId (fun e => { e with currentStep := stepName })
    let r :=
      match step with
      | .agent n a i om mr => execAgentStep oc execId n a i om mr ctx fuel st1
      | .mcpTool n sv tn i mr => execMcpToolStep oc execId n sv tn i mr ctx fuel st1
      | .parallel n ss w => execParallelStep oc execId n ss w ctx fuel st1
      | .conditional n cnd t f => execConditionalStep oc execId n cnd t f ctx fuel st1
      | .http n m u hd b => execHttpStep oc execId n m u hd b ctx st1
      | s => (.err ("Unknown step type: " ++ s.typeTagStr), st1)
    match r with
    | (.ok out, st2) => execSteps oc fuel execId rest (setKey ctx stepName out) st2
    | (.err e, st2) => (.err e, st2)
    | (.timeout, st2) => (.timeout, st2)

/-- The fresh WorkflowExecution row created by execute_workflow. -/
def initialExecRec (tenant workflowId : Nat) (inputData : JVal)
    (context : Option (List (String × JVal))) (startedAt eid : Nat) : ExecRec :=
  { id := eid, tenantId := tenant, workflowId := workflowId, status := "running"
    currentStep := "", inputData := inputData, contextData := context.getD []
    outputData := none, errorMessage := none, startedAt := startedAt
    completedAt := none, durationSeconds := none }

/-- The state right after execute_workflow has created and committed the
execution row. -/
def execCreateState (tenant workflowId : Nat) (inputData : JVal)
    (context : Option (List (String × JVal))) (st : EngineState) : EngineState :=
  let t := st.now
  { t.2 with
    executions := t.2.executions ++
      [initialExecRec tenant workflowId inputData context t.1 st.nextId],
    nextId := t.2.nextId + 1 }

/-- The seeded workflow context: a dict literal with input first, then the
spread of the extra context. -/
def seedContext (inputData : JVal) (context : Option (List (String × JVal))) :
    List (String × JVal) :=
  (context.getD []).foldl (fun acc kv => setKey acc kv.1 kv.2) [("input", inputData)]

/-- execute_workflow: load the workflow (tenant-scoped, not deleted),
reject a missing or non-active workflow before any record is created,
create the execution row in status running, run the steps over the seeded
context, and finalize: completed with output_data on success; failed with
error_message on a raised step error — after which the exception
propagates to the caller (the raise after the cleanup in the except
block). -/
def executeWorkflow (oc : Oracles) (tenant workflowId : Nat) (inputData : JVal)
    (context : Option (List (String × JVal))) (fuel : Nat) (st : EngineState) :
    Res ExecRec × EngineState :=
  match st.workflows.find? (fun w => w.id = workflowId && w.tenantId = tenant
      && !w.deleted) with
  | none => (.err ("Workflow " ++ toString workflowId ++ " not found"), st)
  | some wf =>
    if wf.status ≠ "active" then
      (.err ("Workflow " ++ toString workflowId ++ " is not active"), st)
    else
      let eid := st.nextId
      let st1 := execCreateState tenant workflowId inputData context st
      let ctx0 := seedContext inputData context
      match execSteps oc fuel eid wf.steps ctx0 st1 with
      | (.ok out, st2) =>
        let t1 := st2.now
        let st3 := t1.2.updateExec eid (fun e =>
          { e with status := "completed", outputData := some out,
                   completedAt := some t1.1, durationSeconds := some (t1.1 - e.startedAt) })
        (.ok (st3.findExecD eid), st3)
      | (.err msg, st2) =>
        let t1 := st2.now
        let st3 := t1.2.updateExec eid (fun e =>
          { e with status := "failed", errorMessage := some msg,
                   completedAt := some t1.1, durationSeconds := some (t1.1 - e.startedAt) })
        (.err msg, st3)
      | (.timeout, st2) => (.timeout, st2)

/-- cancel_workflow: load the execution (tenant-scoped); raise unless its
status is pending or running; set cancelled with completion timing and
return the refreshed row. -/
def cancelWorkflow (tenant executionId : Nat) (st : EngineState) :
    Res ExecRec × EngineState :=
  match st.executions.find? (fun e => e.id = executionId && e.tenantId = tenant) with
  | none =>
    (.err ("Workflow execution " ++ toString executionId ++ " not found"), st)
  | some e =>
    if e.status ≠ "pending" ∧ e.status ≠ "running" then
      (.err ("Cannot cancel workflow in status: " ++ e.status), st)
    else
      let t := st.now
      let st1 := t.2.updateExec executionId (fun x =>
        { x with status := "cancelled", completedAt := some t.1,
                 durationSeconds := some (t.1 - x.startedAt) })
      (.ok (st1.findExecD executionId), st1)

/-! ### The condition grammar as written in the specification

Modelled from the spec: section 4.2 defines the condition grammar as
  dollar-dot <dotted.path> <op> <literal>
where op is one of > < >= <= == != and literal is one of true/false (bool),
null, a quoted string, or a number (float), and states that evaluation
fails with InvalidCondition if the string does not match this grammar.
This definition follows the words of the spec (a dotted path of non-empty
identifier segments, one operator from the list, a literal of one of the
four stated forms, separated by whitespace) and exists only to be compared
with the behaviour of the source evaluator. -/

def isIdentChar (c : Char) : Bool :=
  c.isAlphanum || c = '_'

def dottedPathB (s : String) : Bool :=
  let segs := splitDots s
  !segs.isEmpty && segs.all (fun seg => !seg.isEmpty && seg.toList.all isIdentChar)

def specLiteralB (s : String) : Bool :=
  s = "true" || s = "false" || s = "null" ||
  (s.length ≥ 2 && strStartsWith s "\x22" && strEndsWith s "\x22") ||
  (parseFloatQ s).isSome

def specCondGrammar (c : String) : Bool :=
  match c.toList with
  | '$' :: '.' :: rest =>
    let pathCs := rest.takeWhile (fun ch => isIdentChar ch || ch = '.')
    let r1 := (rest.drop pathCs.length).dropWhile isPySpace
    let opCs := r1.takeWhile isOpChar
    let lit := (r1.drop opCs.length).dropWhile isPySpace
    dottedPathB ⟨pathCs⟩ &&
      [">", "<", ">=", "<=", "==", "!="].contains (⟨opCs⟩ : String) &&
      specLiteralB ⟨lit⟩
  | _ => false

/-! ### Concrete scenario fixtures used by witnesses and counterexamples -/

/-- An empty database state. -/
def st0 : EngineState :=
  { workflows := [], executions := [], stepRecs := [], tasks := [],
    nextId := 0, clock := 0, agentCalls := 0, toolCalls := 0, httpCalls := 0 }

/-- Capabilities that fail on every call. -/
def ocFail : Oracles :=
  { agent := fun _ => .error "boom", tool := fun _ => .error "boom",
    http := fun _ => .error "boom" }

/-- Capabilities that succeed on every call. -/
def ocOk : Oracles :=
  { agent := fun n => .ok ("resp" ++ toString n), tool := fun _ => .ok (.obj []),
    http := fun _ => .ok (.obj []) }

/-- Capabilities whose second agent call fails. -/
def ocMix : Oracles :=
  { agent := fun n => if n = 1 then .error "boom" else .ok "yay",
    tool := fun _ => .error "nope", http := fun _ => .error "nope" }

/-- An active workflow of two agent steps that both omit the name key. -/
def wfTwoUnnamed : WorkflowRow :=
  { id := 10, tenantId := 1, status := "active", deleted := false,
    steps := [.agent none 1 (.obj []) none none, .agent none 2 (.obj []) none none] }

/-- An active workflow with a single agent step and max_retries 0. -/
def wfOneAgent : WorkflowRow :=
  { id := 11, tenantId := 1, status := "active", deleted := false,
    steps := [.agent (some "a") 1 (.obj []) none none] }

/-- State holding the two fixture workflows. -/
def stW : EngineState :=
  { st0 with workflows := [wfTwoUnnamed, wfOneAgent] }

/-- A running execution row used by the cancellation scenarios. -/
def execBase : ExecRec :=
  { id := 3, tenantId := 1, workflowId := 10, status := "running", currentStep := "",
    inputData := .null, contextData := [], outputData := none, errorMessage := none,
    startedAt := 5, completedAt := none, durationSeconds := none }

/-- State holding one execution row in the given status. -/
def stWithExec (s : String) : EngineState :=
  { st0 with executions := [{ execBase with status := s }], clock := 9, nextId := 4 }

/-- Context fixtures for the condition-evaluator claims. -/
def ctxV (q : ℚ) : JVal := .obj [("s", .obj [("v", .num q)])]

def ctxStatusOk : JVal := .obj [("s", .obj [("status", .str "ok")])]

/-- The failed step row left behind by one failing attempt of
_execute_agent_step (with its retry_count already incremented to 1 by the
retry branch). -/
def failedStepRec (st : EngineState) (execId : Nat) (name : Option String)
    (input : JVal) (emsg : String) : StepRec :=
  { id := st.nextId, execId := execId, stepName := name.getD "unnamed_step",
    stepType := "agent", status := "failed", inputData := input, outputData := none,
    errorMessage := some emsg, retryCount := 1, startedAt := st.clock,
    completedAt := some (st.clock + 1), durationSeconds := some 1 }

/-- The failed AgentTask row left behind by one failing attempt. -/
def failedTaskRec (st : EngineState) (agentId : Nat) (emsg : String) : TaskRec :=
  { id := st.nextId + 1, agentId := agentId, status := "failed",
    errorMessage := some emsg }

/-- The state after one failing attempt of _execute_agent_step, just
before the recursive re-entry. -/
def retryReentryState (st : EngineState) (execId : Nat) (name : Option String)
    (agentId : Nat) (input : JVal) (emsg : String) : EngineState :=
  { st with
    stepRecs := st.stepRecs ++ [failedStepRec st execId name input emsg],
    tasks := st.tasks ++ [failedTaskRec st agentId emsg],
    nextId := st.nextId + 2, clock := st.clock + 2,
    agentCalls := st.agentCalls + 1 }



/-- An active workflow with a single parallel step of three agent
sub-steps under wait_for all. -/
def wfParallel : WorkflowRow :=
  { id := 12, tenantId := 1, status := "active", deleted := false,
    steps := [.parallel (some "par")
      [.agent (some "a0") 1 (.obj []) none none,
       .agent (some "a1") 2 (.obj []) none none,
       .agent (some "a2") 3 (.obj []) none none] (some "all")] }

/-- State holding the parallel fixture workflow. -/
def stPar : EngineState :=
  { st0 with workflows := [wfParallel] }

/-- The status of a returned execution row (empty on error or timeout). -/
def resStatus : Res ExecRec → String
  | .ok e => e.status
  | _ => ""

/-- Step-row and task ids all lie below the id counter — the freshness
invariant the engine maintains on every state it creates. -/
def Fresh (st : EngineState) : Prop :=
  (∀ r ∈ st.stepRecs, r.id < st.nextId) ∧ ∀ t ∈ st.tasks, t.id < st.nextId

/-- One engine state extends another: under freshness of the start state,
every step row of the end state is an old row or a freshly created one,
the id counter only grows, and freshness is preserved. -/
def Extends (st st2 : EngineState) : Prop :=
  Fresh st →
    (∀ r ∈ st2.stepRecs, r ∈ st.stepRecs ∨ st.nextId ≤ r.id) ∧
    st.nextId ≤ st2.nextId ∧ Fresh st2

/-- A finished step row: the fresh row of newStepRec after markStepCompleted
or markStepFailed has filled in outcome and timing. -/
def doneStepRec (st : EngineState) (execId : Nat) (name : Option String)
    (stepType : String) (input : JVal) (status : String) (out : Option JVal)
    (err : Option String) (retry : Nat) : StepRec :=
  { id := st.nextId, execId := execId, stepName := name.getD "unnamed_step",
    stepType := stepType, status := status, inputData := input, outputData := out,
    errorMessage := err, retryCount := retry, startedAt := st.clock,
    completedAt := some (st.clock + 1), durationSeconds := some 1 }

/-- The completed AgentTask row left behind by a successful attempt. -/
def okTaskRec (st : EngineState) (agentId : Nat) : TaskRec :=
  { id := st.nextId + 1, agentId := agentId, status := "completed",
    errorMessage := none }

/-- The response plus task_id wrapper built from the agent text. -/
def agentWrapped (st : EngineState) (text : String) : JVal :=
  .obj [("response", .str text), ("task_id", .str (toString (st.nextId + 1)))]

/-- The state after a successful agent attempt. -/
def agentOkState (st : EngineState) (execId : Nat) (name : Option String)
    (agentId : Nat) (input : JVal) (text : String) : EngineState :=
  { st with
    stepRecs := st.stepRecs ++ [doneStepRec st execId name "agent" input "completed"
      (some (agentWrapped st text)) none 0],
    tasks := st.tasks ++ [okTaskRec st agentId],
    nextId := st.nextId + 2, clock := st.clock + 2,
    agentCalls := st.agentCalls + 1 }

/-- The state after a failing agent attempt whose retry guard is off. -/
def agentFailState (st : EngineState) (execId : Nat) (name : Option String)
    (agentId : Nat) (input : JVal) (emsg : String) : EngineState :=
  { st with
    stepRecs := st.stepRecs ++ [doneStepRec st execId name "agent" input "failed"
      none (some emsg) 0],
    tasks := st.tasks ++ [failedTaskRec st agentId emsg],
    nextId := st.nextId + 2, clock := st.clock + 2,
    agentCalls := st.agentCalls + 1 }

/-- The state after a successful mcp_tool attempt. -/
def mcpOkState (st : EngineState) (execId : Nat) (name : Option String)
    (input result : JVal) : EngineState :=
  { st with
    stepRecs := st.stepRecs ++ [doneStepRec st execId name "mcp_tool" input
      "completed" (some result) none 0],
    nextId := st.nextId + 1, clock := st.clock + 2,
    toolCalls := st.toolCalls + 1 }

/-- The state after a failing mcp_tool attempt (retry count 1 on the row
when the retry guard fired, 0 when it did not). -/
def mcpErrState (st : EngineState) (execId : Nat) (name : Option String)
    (input : JVal) (emsg : String) (retry : Nat) : EngineState :=
  { st with
    stepRecs := st.stepRecs ++ [doneStepRec st execId name "mcp_tool" input
      "failed" none (some emsg) retry],
    nextId := st.nextId + 1, clock := st.clock + 2,
    toolCalls := st.toolCalls + 1 }

/-- The http step dict recorded as input_data. -/
def httpStepDict (method url : String) (headers body : JVal) : JVal :=
  .obj [("method", .str method), ("url", .str url),
        ("headers", headers), ("body", body)]

/-- The state after a successful http attempt. -/
def httpOkState (st : EngineState) (execId : Nat) (name : Option String)
    (method url : String) (headers body result : JVal) : EngineState :=
  { st with
    stepRecs := st.stepRecs ++ [doneStepRec st execId name "http"
      (httpStepDict method url headers body) "completed" (some result) none 0],
    nextId := st.nextId + 1, clock := st.clock + 2,
    httpCalls := st.httpCalls + 1 }

/-- The state after a failing http attempt. -/
def httpErrState (st : EngineState) (execId : Nat) (name : Option String)
    (method url : String) (headers body : JVal) (emsg : String) : EngineState :=
  { st with
    stepRecs := st.stepRecs ++ [doneStepRec st execId name "http"
      (httpStepDict method url headers body) "failed" none (some emsg) 0],
    nextId := st.nextId + 1, clock := st.clock + 2,
    httpCalls := st.httpCalls + 1 }

/-! ## Helper lemmas -/

theorem resolveTemplateFields_eq_map (context : List (String × JVal))
    (fs : List (String × JVal)) :
    resolveTemplateFields context fs =
      fs.map (fun kv => (kv.1, resolveTemplateVars context kv.2)) := by
  induction fs with
  | nil => simp [resolveTemplateFields]
  | cons kv rest ih =>
    cases kv
    simp [resolveTemplateFields, ih]

theorem resolveTemplateItems_eq_map (context : List (String × JVal)) (xs : List JVal) :
    resolveTemplateItems context xs = xs.map (resolveTemplateVars context) := by
  induction xs with
  | nil => simp [resolveTemplateItems]
  | cons x rest ih => simp [resolveTemplateItems, ih]

theorem takeWhile_append_brace (l : List Char) (h : ∀ c ∈ l, c ≠ '\x7d') :
    (l ++ ['\x7d']).takeWhile (fun x => x != '\x7d') = l ∧
    (l ++ ['\x7d']).dropWhile (fun x => x != '\x7d') = ['\x7d'] := by
  induction l with
  | nil => simp [List.takeWhile, List.dropWhile]
  | cons a l ih =>
    have ha : a ≠ '\x7d' := h a (by simp)
    have ih2 := ih (fun c hc => h c (by simp [hc]))
    refine ⟨?_, ?_⟩
    · simpa [List.takeWhile_cons, ha] using ih2.1
    · simpa [List.dropWhile_cons, ha] using ih2.2

/-! ## Claims -/

/-- C7: template resolution recurses through maps and sequences, passes
non-string scalars through unchanged, and leaves a placeholder whose
dotted path is not resolvable in the context verbatim in the result
instead of raising. -/
theorem c7_template_resolution :
    (∀ context fs, resolveTemplateVars context (.obj fs) =
        .obj (fs.map (fun kv => (kv.1, resolveTemplateVars context kv.2)))) ∧
    (∀ context xs, resolveTemplateVars context (.arr xs) =
        .arr (xs.map (resolveTemplateVars context))) ∧
    (∀ context q, resolveTemplateVars context (.num q) = .num q) ∧
    (∀ context b, resolveTemplateVars context (.bool b) = .bool b) ∧
    (∀ context, resolveTemplateVars context .null = .null) ∧
    (∀ context (p : String), p ≠ "" → (∀ ch ∈ p.toList, ch ≠ '\x7d') →
        templLookup (.obj context) (splitDots p) = none →
        resolveTemplateString ("\x7b" ++ p ++ "\x7d") context = "\x7b" ++ p ++ "\x7d") := by
  refine ⟨?_, ?_, ?_, ?_, ?_, ?_⟩
  · intro context fs
    simp [resolveTemplateVars, resolveTemplateFields_eq_map]
  · intro context xs
    simp [resolveTemplateVars, resolveTemplateItems_eq_map]
  · intro context q
    simp [resolveTemplateVars]
  · intro context b
    simp [resolveTemplateVars]
  · intro context
    simp [resolveTemplateVars]
  · intro context p hp hbrace hlook
    have hne : p.toList ≠ [] := by
      intro hcon
      apply hp
      cases p with
      | mk data =>
        exact congrArg String.mk hcon
    have htw := takeWhile_append_brace p.toList hbrace
    show ⟨substTemplate context ('\x7b' :: (p.toList ++ ['\x7d']))⟩ = "\x7b" ++ p ++ "\x7d"
    rw [substTemplate]
    rw [htw.1, htw.2]
    rw [if_pos ⟨rfl, hne, by simp⟩]
    simp only [List.tail_cons]
    rw [substTemplate]
    unfold replaceVar
    have hmk : (⟨p.toList⟩ : String) = p := rfl
    rw [hmk, hlook]
    show (⟨'\x7b' :: (p.toList ++ ['\x7d']) ++ []⟩ : String) = "\x7b" ++ p ++ "\x7d"
    simp
    rfl

/-- Witness for C7 at a concrete unresolvable placeholder. -/
theorem c7_template_resolution_witness :
    resolveTemplateString "\x7bmissing.path\x7d" [] = "\x7bmissing.path\x7d" := by
  have h := c7_template_resolution.2.2.2.2.2 [] "missing.path" (by decide)
    (by decide) (by rfl)
  simpa using h

/-- C8 (amended): the three documented evaluations hold, and evaluation
fails with the invalid-format ValueError exactly on condition strings the
source regex does not match (dollar-dot, a non-space path, an operator
run from the characters > < = !, and a non-empty value).  Literals
outside the documented forms do not make evaluation fail: they fall back
to bare-string comparison (see the counterexample). -/
theorem c8_condition_evaluator_amended :
    evalCondition "$.s.v > 0.8" (ctxV (mkRat 9 10)) = .ok true ∧
    evalCondition "$.s.v > 0.8" (ctxV (mkRat 1 2)) = .ok false ∧
    evalCondition "$.s.status == \x22ok\x22" ctxStatusOk = .ok true ∧
    (∀ c context, matchCondition (pyStrip c) = none →
      evalCondition c context = .error (.invalidFormat c)) := by
  refine ⟨rfl, rfl, rfl, ?_⟩
  intro c context h
  simp [evalCondition, h]

/-- Witness for C8 at a concrete non-matching condition string. -/
theorem c8_condition_evaluator_amended_witness :
    evalCondition "hello" ctxStatusOk = .error (.invalidFormat "hello") :=
  c8_condition_evaluator_amended.2.2.2 "hello" ctxStatusOk (by rfl)

/-- C8 counterexample: the condition string  dollar-dot s.status == ok
uses the unquoted literal ok, which is none of the grammar literal forms
(bool, null, quoted string, number), yet the evaluator does not fail with
InvalidCondition: it evaluates the comparison against the bare string and
returns true. -/
theorem c8_grammar_counterexample :
    specCondGrammar "$.s.status == ok" = false ∧
    evalCondition "$.s.status == ok" ctxStatusOk = .ok true :=
  ⟨rfl, rfl⟩

theorem find_map_upd_exec (l : List ExecRec) (eid : Nat) (f : ExecRec → ExecRec)
    (hf : ∀ x, (f x).id = x.id) :
    (l.map (fun r => if r.id = eid then f r else r)).find? (fun r => r.id = eid) =
      (l.find? (fun r => r.id = eid)).map f := by
  induction l with
  | nil => simp
  | cons a l ih =>
    by_cases h : a.id = eid
    · simp [List.find?_cons, h, hf]
    · simp [List.find?_cons, h, ih]

/-- C9. -/
theorem c9_cancel_workflow (tenant eid : Nat) (st : EngineState) (e : ExecRec)
    (hfind : st.executions.find? (fun x => x.id = eid && x.tenantId = tenant) = some e)
    (hfind2 : st.executions.find? (fun x => x.id = eid) = some e) :
    (e.status ≠ "pending" ∧ e.status ≠ "running" →
      cancelWorkflow tenant eid st =
        (.err ("Cannot cancel workflow in status: " ++ e.status), st)) ∧
    (e.status = "pending" ∨ e.status = "running" →
      (cancelWorkflow tenant eid st).1 =
        .ok { e with status := "cancelled", completedAt := some st.clock,
                     durationSeconds := some (st.clock - e.startedAt) }) := by
  constructor
  · intro hbad
    unfold cancelWorkflow
    rw [hfind]
    simp only [if_pos hbad]
  · intro hgood
    have hcond : ¬(e.status ≠ "pending" ∧ e.status ≠ "running") := by
      rcases hgood with h | h <;> simp [h]
    unfold cancelWorkflow
    rw [hfind]
    simp only [if_neg hcond]
    simp only [EngineState.findExecD, EngineState.updateExec, EngineState.now]
    rw [find_map_upd_exec st.executions eid
      (fun r => { r with status := "cancelled", completedAt := some st.clock,
                         durationSeconds := some (st.clock - r.startedAt) })
      (fun x => rfl)]
    rw [hfind2]
    rfl


/-- C4 amended. -/
theorem c4_conditional_skip_amended (oc : Oracles) (execId : Nat) (name : Option String)
    (cond : String) (ifTrue : Option StepDef) (ctx : List (String × JVal)) (fuel : Nat)
    (st : EngineState)
    (hcond : evalCondition cond (.obj ctx) = .ok false) :
    (execConditionalStep oc execId name (some cond) ifTrue none ctx fuel st).1 =
      .ok (.obj [("condition_result", .bool false), ("branch_taken", .str "false"),
                 ("result", .obj [("skipped", .bool true), ("branch", .str "false")])]) ∧
    ((execConditionalStep oc execId name (some cond) ifTrue none ctx fuel st).2).stepRecs.length =
      st.stepRecs.length + 1 := by
  constructor
  · simp only [execConditionalStep, Option.getD, hcond]
    simp
  · simp only [execConditionalStep, Option.getD, hcond]
    simp [markStepCompleted, EngineState.updateStepRec, EngineState.newStepRec,
          EngineState.now]

/-- C4 witness. -/
theorem c4_conditional_skip_amended_witness :
    (execConditionalStep ocOk 0 (some "c") (some "$.s.v > 0.8")
        (some (.agent none 1 (.obj []) none none)) none
        [("s", .obj [("v", .num (mkRat 1 2))])] 5 st0).1 =
      .ok (.obj [("condition_result", .bool false), ("branch_taken", .str "false"),
                 ("result", .obj [("skipped", .bool true), ("branch", .str "false")])]) :=
  (c4_conditional_skip_amended ocOk 0 (some "c") "$.s.v > 0.8"
    (some (.agent none 1 (.obj []) none none))
    [("s", .obj [("v", .num (mkRat 1 2))])] 5 st0 rfl).1

/-- C4 counterexample. -/
theorem c4_output_shape_counterexample :
    (execConditionalStep ocOk 0 (some "c") (some "$.s.v > 0.8")
        (some (.agent none 1 (.obj []) none none)) none
        [("s", .obj [("v", .num (mkRat 1 2))])] 5 st0).1 ≠
      .ok (.obj [("skipped", .bool true), ("branch", .str "false")]) ∧
    ((execConditionalStep ocOk 0 (some "c") (some "$.s.v > 0.8")
        (some (.agent none 1 (.obj []) none none)) none
        [("s", .obj [("v", .num (mkRat 1 2))])] 5 st0).2).stepRecs.map
      (fun r => (r.stepName, r.stepType)) = [("c", "conditional")] := by
  constructor
  · intro h
    have hv : (execConditionalStep ocOk 0 (some "c") (some "$.s.v > 0.8")
        (some (.agent none 1 (.obj []) none none)) none
        [("s", .obj [("v", .num (mkRat 1 2))])] 5 st0).1 =
      .ok (.obj [("condition_result", .bool false), ("branch_taken", .str "false"),
                 ("result", .obj [("skipped", .bool true), ("branch", .str "false")])]) := rfl
    rw [hv] at h
    simp at h
  · rfl

/-- C6 amended. -/
theorem c6_agent_output_amended (oc : Oracles) (execId : Nat) (name : Option String)
    (agentId : Nat) (input : JVal) (om : Option (List (String × String)))
    (mr : Option Nat) (ctx : List (String × JVal)) (fuel : Nat) (st : EngineState)
    (text : String) (hok : oc.agent st.agentCalls = .ok text) :
    (execAgentStep oc execId name agentId input om mr ctx (fuel + 1) st).1 =
      .ok (match om with
           | some m => applyOutputMapping
               (.obj [("response", .str text),
                      ("task_id", .str (toString (st.nextId + 1)))]) m
           | none => .obj [("response", .str text),
                           ("task_id", .str (toString (st.nextId + 1)))]) := by
  simp only [execAgentStep, EngineState.newStepRec, EngineState.newTask,
             EngineState.now, hok]

/-- C6 witness. -/
theorem c6_agent_output_amended_witness :
    (execAgentStep ocOk 0 (some "a") 7 (.obj [])
        (some [("text", "$.response")]) none [] 1 st0).1 =
      .ok (.obj [("text", .str "resp0")]) :=
  c6_agent_output_amended ocOk 0 (some "a") 7 (.obj [])
    (some [("text", "$.response")]) none [] 0 st0 "resp0" rfl

/-- C6 counterexample. -/
theorem c6_task_id_counterexample :
    (execAgentStep ocOk 0 (some "a") 7 (.obj []) none none [] 1 st0).1 =
      .ok (.obj [("response", .str "resp0"), ("task_id", .str "1")]) ∧
    (execAgentStep ocOk 0 (some "a") 7 (.obj []) none none [] 1 st0).1 ≠
      .ok (.obj [("response", .str "resp0")]) := by
  constructor
  · rfl
  · intro h
    have hv : (execAgentStep ocOk 0 (some "a") 7 (.obj []) none none [] 1 st0).1 =
      .ok (.obj [("response", .str "resp0"), ("task_id", .str "1")]) := rfl
    rw [hv] at h
    simp at h


/-- C9 witness. -/
theorem c9_cancel_workflow_witness :
    cancelWorkflow 1 3 (stWithExec "completed") =
      (.err "Cannot cancel workflow in status: completed", stWithExec "completed") ∧
    (cancelWorkflow 1 3 (stWithExec "running")).1 =
      .ok { execBase with
            status := "cancelled", completedAt := some 9, durationSeconds := some 4 } := by
  have h1 := c9_cancel_workflow 1 3 (stWithExec "completed")
    { execBase with status := "completed" } rfl rfl
  have h2 := c9_cancel_workflow 1 3 (stWithExec "running")
    { execBase with status := "running" } rfl rfl
  constructor
  · exact h1.1 (by constructor <;> decide)
  · exact h2.2 (Or.inr rfl)

/-- C10: executors default a missing name to unnamed_step (each executor
behaves identically to one whose step carries that literal name), and two
sibling unnamed steps overwrite each other in the context. -/
theorem c10_unnamed_step_default :
    (∀ oc execId agentId input om mr ctx fuel st,
      execAgentStep oc execId none agentId input om mr ctx fuel st =
        execAgentStep oc execId (some "unnamed_step") agentId input om mr ctx fuel st) ∧
    (∀ oc execId sv tn input mr ctx fuel st,
      execMcpToolStep oc execId none sv tn input mr ctx fuel st =
        execMcpToolStep oc execId (some "unnamed_step") sv tn input mr ctx fuel st) ∧
    (∀ oc execId m u hd b ctx st,
      execHttpStep oc execId none m u hd b ctx st =
        execHttpStep oc execId (some "unnamed_step") m u hd b ctx st) ∧
    (∀ oc execId steps w ctx fuel st,
      execParallelStep oc execId none steps w ctx fuel st =
        execParallelStep oc execId (some "unnamed_step") steps w ctx fuel st) ∧
    (∀ oc execId cond t f ctx fuel st,
      execConditionalStep oc execId none cond t f ctx fuel st =
        execConditionalStep oc execId (some "unnamed_step") cond t f ctx fuel st) ∧
    ((executeWorkflow ocOk 1 10 (.str "in") none 5 stW).1 =
      .ok ((executeWorkflow ocOk 1 10 (.str "in") none 5 stW).2.findExecD 0) ∧
     ((executeWorkflow ocOk 1 10 (.str "in") none 5 stW).2.findExecD 0).outputData =
       some [("input", .str "in"),
             ("unnamed_step", .obj [("response", .str "resp1"), ("task_id", .str "4")])] ∧
     ((executeWorkflow ocOk 1 10 (.str "in") none 5 stW).2).stepRecs.map
       (fun r => (r.stepName, r.status)) =
         [("unnamed_step", "completed"), ("unnamed_step", "completed")]) := by
  refine ⟨?_, ?_, ?_, ?_, ?_, rfl, rfl, rfl⟩
  · intro oc execId agentId input om mr ctx fuel st
    induction fuel generalizing st with
    | zero => rfl
    | succ n ih =>
      simp only [execAgentStep, Option.getD]
      cases oc.agent ((st.newStepRec execId "unnamed_step" "agent" input).2.newTask agentId).2.agentCalls with
      | ok text => rfl
      | error e =>
        simp only []
        split
        · exact ih _
        · rfl
  · intro oc execId sv tn input mr ctx fuel st
    induction fuel generalizing st with
    | zero => rfl
    | succ n ih =>
      simp only [execMcpToolStep, Option.getD]
      cases oc.tool (st.newStepRec execId "unnamed_step" "mcp_tool" input).2.toolCalls with
      | ok r => rfl
      | error e =>
        simp only []
        split
        · exact ih _
        · rfl
  · intro oc execId m u hd b ctx st
    rfl
  · intro oc execId steps w ctx fuel st
    rfl
  · intro oc execId cond t f ctx fuel st
    rfl

theorem execAgentStep_executions (oc : Oracles) (execId : Nat) (name : Option String)
    (agentId : Nat) (input : JVal) (om : Option (List (String × String)))
    (mr : Option Nat) (ctx : List (String × JVal)) :
    ∀ fuel st,
      (execAgentStep oc execId name agentId input om mr ctx fuel st).2.executions =
        st.executions := by
  intro fuel
  induction fuel with
  | zero => intro st; rfl
  | succ n ih =>
    intro st
    simp only [execAgentStep]
    cases oc.agent
        ((st.newStepRec execId (name.getD "unnamed_step") "agent" input).2.newTask
          agentId).2.agentCalls with
    | ok text => rfl
    | error e =>
      simp only []
      split
      · rw [ih]
        rfl
      · rfl

theorem execMcpToolStep_executions (oc : Oracles) (execId : Nat) (name : Option String)
    (sv : Nat) (tn : String) (input : JVal) (mr : Option Nat)
    (ctx : List (String × JVal)) :
    ∀ fuel st,
      (execMcpToolStep oc execId name sv tn input mr ctx fuel st).2.executions =
        st.executions := by
  intro fuel
  induction fuel with
  | zero => intro st; rfl
  | succ n ih =>
    intro st
    simp only [execMcpToolStep]
    cases oc.tool (st.newStepRec execId (name.getD "unnamed_step") "mcp_tool" input).2.toolCalls with
    | ok r => rfl
    | error e =>
      simp only []
      split
      · rw [ih]
        rfl
      · rfl

theorem execHttpStep_executions (oc : Oracles) (execId : Nat) (name : Option String)
    (m u : String) (hd b : JVal) (ctx : List (String × JVal)) (st : EngineState) :
    (execHttpStep oc execId name m u hd b ctx st).2.executions = st.executions := by
  simp only [execHttpStep]
  cases oc.http (st.newStepRec execId (name.getD "unnamed_step") "http"
      (.obj [("method", .str m), ("url", .str u), ("headers", hd), ("body", b)])).2.httpCalls with
  | ok r => rfl
  | error e => rfl

theorem execSingleStep_executions (oc : Oracles) (execId : Nat)
    (ctx : List (String × JVal)) (fuel : Nat) (st : EngineState) (s : StepDef) :
    (execSingleStep oc execId ctx fuel st s).2.executions = st.executions := by
  cases s with
  | agent name agentId input om mr => exact execAgentStep_executions oc execId name agentId input om mr ctx fuel st
  | mcpTool name sv tn input mr => exact execMcpToolStep_executions oc execId name sv tn input mr ctx fuel st
  | http name m u hd b => exact execHttpStep_executions oc execId name m u hd b ctx st
  | parallel name steps w => rfl
  | conditional name c t f => rfl
  | other name ty => rfl

theorem runParallelTasks_executions (oc : Oracles) (execId : Nat)
    (ctx : List (String × JVal)) (fuel : Nat) :
    ∀ steps st,
      (runParallelTasks oc execId ctx fuel steps st).2.executions = st.executions := by
  intro steps
  induction steps with
  | nil => intro st; rfl
  | cons s rest ih =>
    intro st
    simp only [runParallelTasks]
    split
    next v st1 h =>
      have h1 : st1.executions = st.executions := by
        have := execSingleStep_executions oc execId ctx fuel st s
        rw [h] at this
        exact this
      rcases h2 : runParallelTasks oc execId ctx fuel rest st1 with ⟨r2, st2⟩
      have h3 : st2.executions = st1.executions := by
        have := ih st1
        rw [h2] at this
        exact this
      cases r2 <;> simp [h2, h3, h1]
    next e st1 h =>
      have h1 : st1.executions = st.executions := by
        have := execSingleStep_executions oc execId ctx fuel st s
        rw [h] at this
        exact this
      rcases h2 : runParallelTasks oc execId ctx fuel rest st1 with ⟨r2, st2⟩
      have h3 : st2.executions = st1.executions := by
        have := ih st1
        rw [h2] at this
        exact this
      cases r2 <;> simp [h2, h3, h1]
    next st1 h =>
      have h1 : st1.executions = st.executions := by
        have := execSingleStep_executions oc execId ctx fuel st s
        rw [h] at this
        exact this
      exact h1


theorem runFirstN_executions (oc : Oracles) (execId : Nat)
    (ctx : List (String × JVal)) (fuel : Nat) :
    ∀ n steps st,
      (runFirstN oc execId ctx fuel n steps st).2.executions = st.executions := by
  intro n
  induction n with
  | zero =>
    intro steps st
    cases steps <;> rfl
  | succ m ih =>
    intro steps st
    cases steps with
    | nil => rfl
    | cons s rest =>
      simp only [runFirstN]
      rcases h : execSingleStep oc execId ctx fuel st s with ⟨r, st1⟩
      have h1 : st1.executions = st.executions := by
        have := execSingleStep_executions oc execId ctx fuel st s
        rw [h] at this
        exact this
      cases r with
      | ok v =>
        rcases h2 : runFirstN oc execId ctx fuel m rest st1 with ⟨r2, st2⟩
        have h3 : st2.executions = st1.executions := by
          have := ih rest st1
          rw [h2] at this
          exact this
        cases r2 <;> simp [h2, h3, h1]
      | err e => simpa using h1
      | timeout => simpa using h1

theorem execParallelStep_executions (oc : Oracles) (execId : Nat) (name : Option String)
    (steps : List StepDef) (w : Option String) (ctx : List (String × JVal))
    (fuel : Nat) (st : EngineState) :
    (execParallelStep oc execId name steps w ctx fuel st).2.executions =
      st.executions := by
  simp only [execParallelStep]
  split
  · rcases h : runParallelTasks oc execId ctx fuel steps
        (st.newStepRec execId (name.getD "unnamed_step") "parallel"
          (.obj [("wait_for", .str (w.getD "all"))])).2 with ⟨r, st2⟩
    have h1 : st2.executions = st.executions := by
      have := runParallelTasks_executions oc execId ctx fuel steps
        (st.newStepRec execId (name.getD "unnamed_step") "parallel"
          (.obj [("wait_for", .str (w.getD "all"))])).2
      rw [h] at this
      exact this
    cases r with
    | ok results =>
      simp only [h]
      split
      · simp [markStepFailed, EngineState.updateStepRec, EngineState.now, h1]
      · simp [markStepCompleted, EngineState.updateStepRec, EngineState.now, h1]
    | err e => simp [h, h1]
    | timeout => simp [h, h1]
  · split
    · cases steps with
      | nil => rfl
      | cons s rest =>
        rcases h : execSingleStep oc execId ctx fuel
            (st.newStepRec execId (name.getD "unnamed_step") "parallel"
              (.obj [("wait_for", .str (w.getD "all"))])).2 s with ⟨r, st2⟩
        have h1 : st2.executions = st.executions := by
          have := execSingleStep_executions oc execId ctx fuel
            (st.newStepRec execId (name.getD "unnamed_step") "parallel"
              (.obj [("wait_for", .str (w.getD "all"))])).2 s
          rw [h] at this
          exact this
        cases r with
        | ok v => simp [h, markStepCompleted, EngineState.updateStepRec, EngineState.now, h1]
        | err e => simp [h, markStepFailed, EngineState.updateStepRec, EngineState.now, h1]
        | timeout => simp [h, h1]
    · split
      · cases steps with
        | nil => rfl
        | cons s rest =>
          rcases h : runFirstN oc execId ctx fuel
              (max ((parseNat ((w.getD "all").drop 6)).getD 0) 1) (s :: rest)
              (st.newStepRec execId (name.getD "unnamed_step") "parallel"
                (.obj [("wait_for", .str (w.getD "all"))])).2 with ⟨r, st2⟩
          have h1 : st2.executions = st.executions := by
            have := runFirstN_executions oc execId ctx fuel
              (max ((parseNat ((w.getD "all").drop 6)).getD 0) 1) (s :: rest)
              (st.newStepRec execId (name.getD "unnamed_step") "parallel"
                (.obj [("wait_for", .str (w.getD "all"))])).2
            rw [h] at this
            exact this
          cases r with
        | ok v => simp [h, markStepCompleted, EngineState.updateStepRec, EngineState.now, h1]
        | err e => simp [h, markStepFailed, EngineState.updateStepRec, EngineState.now, h1]
        | timeout => simp [h, h1]
      · rcases h : runParallelTasks oc execId ctx fuel steps
            (st.newStepRec execId (name.getD "unnamed_step") "parallel"
              (.obj [("wait_for", .str (w.getD "all"))])).2 with ⟨r, st2⟩
        have h1 : st2.executions = st.executions := by
          have := runParallelTasks_executions oc execId ctx fuel steps
            (st.newStepRec execId (name.getD "unnamed_step") "parallel"
              (.obj [("wait_for", .str (w.getD "all"))])).2
          rw [h] at this
          exact this
        cases r with
        | ok v => simp [h, markStepCompleted, EngineState.updateStepRec, EngineState.now, h1]
        | err e => simp [h, markStepFailed, EngineState.updateStepRec, EngineState.now, h1]
        | timeout => simp [h, h1]

theorem execConditionalStep_executions (oc : Oracles) (execId : Nat)
    (name : Option String) (cond : Option String) (t f : Option StepDef)
    (ctx : List (String × JVal)) (fuel : Nat) (st : EngineState) :
    (execConditionalStep oc execId name cond t f ctx fuel st).2.executions =
      st.executions := by
  simp only [execConditionalStep]
  rcases evalCondition (cond.getD "") (.obj ctx) with e | b
  · rfl
  · simp only []
    rcases hb : (if b then t else f) with _ | bs
    · rfl
    · rcases h : execSingleStep oc execId ctx fuel
          (st.newStepRec execId (name.getD "unnamed_step") "conditional"
            (.obj [("condition", .str (cond.getD ""))])).2 bs with ⟨r, st2⟩
      have h1 : st2.executions = st.executions := by
        have := execSingleStep_executions oc execId ctx fuel
          (st.newStepRec execId (name.getD "unnamed_step") "conditional"
            (.obj [("condition", .str (cond.getD ""))])).2 bs
        rw [h] at this
        exact this
      cases r with
      | ok v => simp [h, markStepCompleted, EngineState.updateStepRec, EngineState.now, h1]
      | err e => simp [h, markStepFailed, EngineState.updateStepRec, EngineState.now, h1]
      | timeout => simp [h, h1]


theorem find_append_fresh_exec (l : List ExecRec) (r : ExecRec) (eid : Nat)
    (h : ∀ x ∈ l, x.id ≠ eid) (hr : r.id = eid) :
    (l ++ [r]).find? (fun x => x.id = eid) = some r := by
  induction l with
  | nil => simp [List.find?, hr]
  | cons a l ih =>
    have ha : a.id ≠ eid := h a (by simp)
    rw [List.cons_append, List.find?_cons, decide_eq_false ha]
    exact ih (fun x hx => h x (by simp [hx]))

theorem execSteps_find (oc : Oracles) (fuel execId : Nat) :
    ∀ (steps : List StepDef) (ctx : List (String × JVal)) (st : EngineState)
      (e : ExecRec),
      st.executions.find? (fun r => r.id = execId) = some e →
      ∃ cs, ((execSteps oc fuel execId steps ctx st).2).executions.find?
          (fun r => r.id = execId) = some { e with currentStep := cs } := by
  intro steps
  induction steps with
  | nil =>
    intro ctx st e h
    exact ⟨e.currentStep, h⟩
  | cons s rest ih =>
    intro ctx st e h
    simp only [execSteps]
    have h1 : (st.updateExec execId
        (fun x => { x with currentStep := s.nameD })).executions.find?
          (fun r => r.id = execId) = some { e with currentStep := s.nameD } := by
      simp only [EngineState.updateExec]
      rw [find_map_upd_exec st.executions execId
        (fun x => { x with currentStep := s.nameD }) (fun x => rfl), h]
      rfl
    cases s with
    | agent n a i om mr =>
      rcases hr : execAgentStep oc execId n a i om mr ctx fuel
          (st.updateExec execId (fun x =>
            { x with currentStep := (StepDef.agent n a i om mr).nameD })) with ⟨r, st2⟩
      have h2 : st2.executions.find? (fun r => r.id = execId) =
          some { e with currentStep := (StepDef.agent n a i om mr).nameD } := by
        have := execAgentStep_executions oc execId n a i om mr ctx fuel
          (st.updateExec execId (fun x =>
            { x with currentStep := (StepDef.agent n a i om mr).nameD }))
        rw [hr] at this
        rw [this]
        exact h1
      simp only [hr]
      cases r with
      | ok out =>
        exact ih _ _ { e with currentStep := (StepDef.agent n a i om mr).nameD } h2
      | err e2 => exact ⟨_, h2⟩
      | timeout => exact ⟨_, h2⟩
    | mcpTool n sv tn i mr =>
      rcases hr : execMcpToolStep oc execId n sv tn i mr ctx fuel
          (st.updateExec execId (fun x =>
            { x with currentStep := (StepDef.mcpTool n sv tn i mr).nameD })) with ⟨r, st2⟩
      have h2 : st2.executions.find? (fun r => r.id = execId) =
          some { e with currentStep := (StepDef.mcpTool n sv tn i mr).nameD } := by
        have := execMcpToolStep_executions oc execId n sv tn i mr ctx fuel
          (st.updateExec execId (fun x =>
            { x with currentStep := (StepDef.mcpTool n sv tn i mr).nameD }))
        rw [hr] at this
        rw [this]
        exact h1
      simp only [hr]
      cases r with
      | ok out =>
        exact ih _ _ { e with currentStep := (StepDef.mcpTool n sv tn i mr).nameD } h2
      | err e2 => exact ⟨_, h2⟩
      | timeout => exact ⟨_, h2⟩
    | http n m u hd b =>
      rcases hr : execHttpStep oc execId n m u hd b ctx
          (st.updateExec execId (fun x =>
            { x with currentStep := (StepDef.http n m u hd b).nameD })) with ⟨r, st2⟩
      have h2 : st2.executions.find? (fun r => r.id = execId) =
          some { e with currentStep := (StepDef.http n m u hd b).nameD } := by
        have := execHttpStep_executions oc execId n m u hd b ctx
          (st.updateExec execId (fun x =>
            { x with currentStep := (StepDef.http n m u hd b).nameD }))
        rw [hr] at this
        rw [this]
        exact h1
      simp only [hr]
      cases r with
      | ok out =>
        exact ih _ _ { e with currentStep := (StepDef.http n m u hd b).nameD } h2
      | err e2 => exact ⟨_, h2⟩
      | timeout => exact ⟨_, h2⟩
    | parallel n ss w =>
      rcases hr : execParallelStep oc execId n ss w ctx fuel
          (st.updateExec execId (fun x =>
            { x with currentStep := (StepDef.parallel n ss w).nameD })) with ⟨r, st2⟩
      have h2 : st2.executions.find? (fun r => r.id = execId) =
          some { e with currentStep := (StepDef.parallel n ss w).nameD } := by
        have := execParallelStep_executions oc execId n ss w ctx fuel
          (st.updateExec execId (fun x =>
            { x with currentStep := (StepDef.parallel n ss w).nameD }))
        rw [hr] at this
        rw [this]
        exact h1
      simp only [hr]
      cases r with
      | ok out =>
        exact ih _ _ { e with currentStep := (StepDef.parallel n ss w).nameD } h2
      | err e2 => exact ⟨_, h2⟩
      | timeout => exact ⟨_, h2⟩
    | conditional n c t f =>
      rcases hr : execConditionalStep oc execId n c t f ctx fuel
          (st.updateExec execId (fun x =>
            { x with currentStep := (StepDef.conditional n c t f).nameD })) with ⟨r, st2⟩
      have h2 : st2.executions.find? (fun r => r.id = execId) =
          some { e with currentStep := (StepDef.conditional n c t f).nameD } := by
        have := execConditionalStep_executions oc execId n c t f ctx fuel
          (st.updateExec execId (fun x =>
            { x with currentStep := (StepDef.conditional n c t f).nameD }))
        rw [hr] at this
        rw [this]
        exact h1
      simp only [hr]
      cases r with
      | ok out =>
        exact ih _ _ { e with currentStep := (StepDef.conditional n c t f).nameD } h2
      | err e2 => exact ⟨_, h2⟩
      | timeout => exact ⟨_, h2⟩
    | other n ty =>
      exact ⟨_, h1⟩


/-- C3 amended. -/
theorem c3_failure_persisted_amended (oc : Oracles) (tenant wid : Nat)
    (inputData : JVal) (context : Option (List (String × JVal))) (fuel : Nat)
    (st : EngineState) (wf : WorkflowRow)
    (hw : st.workflows.find? (fun w => w.id = wid && w.tenantId = tenant
        && !w.deleted) = some wf)
    (hactive : wf.status = "active")
    (hfresh : ∀ x ∈ st.executions, x.id ≠ st.nextId)
    (msg : String)
    (hrun : (execSteps oc fuel st.nextId wf.steps (seedContext inputData context)
        (execCreateState tenant wid inputData context st)).1 = .err msg) :
    (executeWorkflow oc tenant wid inputData context fuel st).1 = .err msg ∧
    ∃ e, ((executeWorkflow oc tenant wid inputData context fuel st).2).executions.find?
          (fun r => r.id = st.nextId) = some e ∧
        e.status = "failed" ∧ e.errorMessage = some msg ∧
        e.completedAt.isSome = true ∧ e.workflowId = wid := by
  have hpair : execSteps oc fuel st.nextId wf.steps (seedContext inputData context)
      (execCreateState tenant wid inputData context st) =
      (.err msg, (execSteps oc fuel st.nextId wf.steps (seedContext inputData context)
        (execCreateState tenant wid inputData context st)).2) := by
    rw [← hrun]
  have hfind0 : (execCreateState tenant wid inputData context st).executions.find?
      (fun r => r.id = st.nextId) =
      some (initialExecRec tenant wid inputData context st.clock st.nextId) := by
    simp only [execCreateState, EngineState.now]
    exact find_append_fresh_exec st.executions _ st.nextId hfresh rfl
  obtain ⟨cs, hcs⟩ := execSteps_find oc fuel st.nextId wf.steps
    (seedContext inputData context)
    (execCreateState tenant wid inputData context st)
    (initialExecRec tenant wid inputData context st.clock st.nextId) hfind0
  unfold executeWorkflow
  simp only [hw]
  rw [hactive]
  rw [if_neg (fun hcon => hcon rfl)]
  rw [hpair]
  constructor
  · rfl
  · refine ⟨{ initialExecRec tenant wid inputData context st.clock st.nextId with
        currentStep := cs, status := "failed", errorMessage := some msg,
        completedAt := some (execSteps oc fuel st.nextId wf.steps
          (seedContext inputData context)
          (execCreateState tenant wid inputData context st)).2.clock,
        durationSeconds := some ((execSteps oc fuel st.nextId wf.steps
          (seedContext inputData context)
          (execCreateState tenant wid inputData context st)).2.clock - st.clock) },
      ?_, rfl, rfl, rfl, rfl⟩
    have hupd := find_map_upd_exec
      (execSteps oc fuel st.nextId wf.steps (seedContext inputData context)
        (execCreateState tenant wid inputData context st)).2.executions st.nextId
      (fun e => { e with
          status := "failed", errorMessage := some msg,
          completedAt := some (execSteps oc fuel st.nextId wf.steps
            (seedContext inputData context)
            (execCreateState tenant wid inputData context st)).2.clock,
          durationSeconds := some ((execSteps oc fuel st.nextId wf.steps
            (seedContext inputData context)
            (execCreateState tenant wid inputData context st)).2.clock - e.startedAt) })
      (fun x => rfl)
    rw [hcs] at hupd
    exact hupd


/-- C3 witness. -/
theorem c3_failure_persisted_amended_witness :
    (executeWorkflow ocFail 1 11 (.str "in") none 5 stW).1 = .err "boom" ∧
    ∃ e, ((executeWorkflow ocFail 1 11 (.str "in") none 5 stW).2).executions.find?
        (fun r => r.id = stW.nextId) = some e ∧
      e.status = "failed" ∧ e.errorMessage = some "boom" ∧
      e.completedAt.isSome = true ∧ e.workflowId = 11 :=
  c3_failure_persisted_amended ocFail 1 11 (.str "in") none 5 stW wfOneAgent rfl rfl
    (by simp [stW, st0]) "boom" rfl

/-- C3 counterexample. -/
theorem c3_raw_error_counterexample :
    (executeWorkflow ocFail 1 11 (.str "in") none 5 stW).1 = .err "boom" ∧
    ∀ e, (executeWorkflow ocFail 1 11 (.str "in") none 5 stW).1 ≠ .ok e := by
  constructor
  · rfl
  · intro e h
    have hv : (executeWorkflow ocFail 1 11 (.str "in") none 5 stW).1 = .err "boom" := rfl
    rw [hv] at h
    simp at h

theorem map_id_of_fixed {α : Type} (l : List α) (g : α → α) (h : ∀ r ∈ l, g r = r) :
    l.map g = l := by
  induction l with
  | nil => rfl
  | cons a l ih =>
    simp only [List.map_cons, h a (by simp)]
    rw [ih (fun r hr => h r (by simp [hr]))]

theorem find_append_fresh_step (l : List StepRec) (r : StepRec) (sid : Nat)
    (h : ∀ x ∈ l, x.id ≠ sid) (hr : r.id = sid) :
    (l ++ [r]).find? (fun x => x.id = sid) = some r := by
  induction l with
  | nil => simp [List.find?, hr]
  | cons a l ih =>
    have ha : a.id ≠ sid := h a (by simp)
    rw [List.cons_append, List.find?_cons, decide_eq_false ha]
    exact ih (fun x hx => h x (by simp [hx]))

/-- One failing attempt of the agent executor with a positive retry
budget re-enters itself on a state extended with a fresh failed step row
whose retry_count is 1: the bound is never consulted against an
accumulated count, because each re-entry creates a new row starting at
retry_count 0. -/
theorem execAgentStep_fail_one (oc : Oracles) (emsg : String)
    (hfail : ∀ n, oc.agent n = .error emsg) (execId : Nat) (name : Option String)
    (agentId : Nat) (input : JVal) (om : Option (List (String × String)))
    (mr : Nat) (hmr : 1 ≤ mr) (ctx : List (String × JVal)) (fuel : Nat)
    (st : EngineState)
    (hfreshS : ∀ r ∈ st.stepRecs, r.id < st.nextId)
    (hfreshT : ∀ t ∈ st.tasks, t.id < st.nextId) :
    execAgentStep oc execId name agentId input om (some mr) ctx (fuel + 1) st =
      execAgentStep oc execId name agentId input om (some mr) ctx fuel
        (retryReentryState st execId name agentId input emsg) := by
  have hidS : ∀ r ∈ st.stepRecs, r.id ≠ st.nextId :=
    fun r hr => Nat.ne_of_lt (hfreshS r hr)
  have hidT : ∀ t ∈ st.tasks, t.id ≠ st.nextId + 1 :=
    fun t ht => Nat.ne_of_lt (Nat.lt_succ_of_lt (hfreshT t ht))
  simp only [execAgentStep, hfail, EngineState.newStepRec, EngineState.newTask,
             EngineState.now, EngineState.updateTask, markStepFailed,
             EngineState.updateStepRec, EngineState.findStepD]
  rw [List.map_append]
  rw [map_id_of_fixed st.stepRecs _ (fun r hr => if_neg (hidS r hr))]
  rw [List.map_append]
  rw [map_id_of_fixed st.stepRecs _ (fun r hr => if_neg (hidS r hr))]
  rw [List.map_append]
  rw [map_id_of_fixed st.tasks _ (fun t ht => if_neg (hidT t ht))]
  simp only [List.map_cons, List.map_nil, if_true]
  simp
  have hnone : List.find? (fun r => decide (r.id = st.nextId)) st.stepRecs = none :=
    List.find?_eq_none.mpr (fun x hx => by simp [hidS x hx])
  rw [hnone]
  simp only [Option.none_or, Option.getD_some]
  rw [if_pos (Nat.lt_of_lt_of_le Nat.zero_lt_one hmr)]
  rfl


/-- C1 (code bug demonstration): with an agent runner that fails on every
attempt and a positive max_retries, the executor never terminates — every
amount of fuel is exhausted — and each attempt appends one more failed
WorkflowStepExecution row; every row it ever creates has retryCount 1, so
the record count grows without bound, no row accumulates retryCount up to
max_retries, and the retry never happens in place. -/
theorem c1_retry_unbounded (oc : Oracles) (emsg : String)
    (hfail : ∀ n, oc.agent n = .error emsg) (execId : Nat) (name : Option String)
    (agentId : Nat) (input : JVal) (om : Option (List (String × String)))
    (mr : Nat) (hmr : 1 ≤ mr) (ctx : List (String × JVal)) :
    ∀ fuel st, (∀ r ∈ st.stepRecs, r.id < st.nextId) →
      (∀ t ∈ st.tasks, t.id < st.nextId) →
      (execAgentStep oc execId name agentId input om (some mr) ctx fuel st).1 =
        .timeout ∧
      ((execAgentStep oc execId name agentId input om (some mr) ctx
          fuel st).2).stepRecs.length = st.stepRecs.length + fuel ∧
      ∀ r ∈ ((execAgentStep oc execId name agentId input om (some mr) ctx
          fuel st).2).stepRecs,
        r ∈ st.stepRecs ∨ (r.status = "failed" ∧ r.retryCount = 1) := by
  intro fuel
  induction fuel with
  | zero =>
    intro st hS hT
    exact ⟨rfl, rfl, fun r hr => Or.inl hr⟩
  | succ n ih =>
    intro st hS hT
    rw [execAgentStep_fail_one oc emsg hfail execId name agentId input om mr hmr
      ctx n st hS hT]
    have hS2 : ∀ r ∈ (retryReentryState st execId name agentId input emsg).stepRecs,
        r.id < (retryReentryState st execId name agentId input emsg).nextId := by
      intro r hr
      simp only [retryReentryState] at hr ⊢
      rcases List.mem_append.mp hr with h | h
      · have := hS r h
        omega
      · simp only [List.mem_singleton] at h
        subst h
        simp only [failedStepRec]
        omega
    have hT2 : ∀ t ∈ (retryReentryState st execId name agentId input emsg).tasks,
        t.id < (retryReentryState st execId name agentId input emsg).nextId := by
      intro t ht
      simp only [retryReentryState] at ht ⊢
      rcases List.mem_append.mp ht with h | h
      · have := hT t h
        omega
      · simp only [List.mem_singleton] at h
        subst h
        simp only [failedTaskRec]
        omega
    obtain ⟨h1, h2, h3⟩ := ih (retryReentryState st execId name agentId input emsg)
      hS2 hT2
    refine ⟨h1, ?_, ?_⟩
    · rw [h2]
      simp only [retryReentryState, List.length_append, List.length_singleton]
      omega
    · intro r hr
      rcases h3 r hr with hin | hfr
      · simp only [retryReentryState] at hin
        rcases List.mem_append.mp hin with h | h
        · exact Or.inl h
        · simp only [List.mem_singleton] at h
          subst h
          exact Or.inr ⟨rfl, rfl⟩
      · exact Or.inr hfr


/-- C1 witness: a single agent step with max_retries 2 and an
always-failing runner, run with fuel 3: the executor exhausts all fuel,
has created three failed rows (one per attempt), and every row carries
retryCount 1 — never 2. -/
theorem c1_retry_unbounded_witness :
    (execAgentStep ocFail 0 (some "a") 7 (.obj []) none (some 2) [] 3 st0).1 =
      .timeout ∧
    ((execAgentStep ocFail 0 (some "a") 7 (.obj []) none (some 2) []
        3 st0).2).stepRecs.length = 3 ∧
    ((execAgentStep ocFail 0 (some "a") 7 (.obj []) none (some 2) []
        3 st0).2).stepRecs.map (fun r => (r.status, r.retryCount)) =
      [("failed", 1), ("failed", 1), ("failed", 1)] := by
  have h := c1_retry_unbounded ocFail "boom" (fun n => rfl) 0 (some "a") 7
    (.obj []) none 2 (by decide) [] 3 st0 (by simp [st0]) (by simp [st0])
  refine ⟨h.1, ?_, rfl⟩
  rw [h.2.1]
  rfl

theorem Extends.trans {a b c : EngineState} (h1 : Extends a b) (h2 : Extends b c) :
    Extends a c := by
  intro hf
  obtain ⟨m1, n1, f1⟩ := h1 hf
  obtain ⟨m2, n2, f2⟩ := h2 f1
  refine ⟨?_, le_trans n1 n2, f2⟩
  intro r hr
  rcases m2 r hr with h | h
  · exact m1 r h
  · exact Or.inr (le_trans n1 h)

theorem Extends.mk1 (st st2 : EngineState) (r : StepRec) (k : Nat)
    (h1 : st2.stepRecs = st.stepRecs ++ [r]) (h2 : r.id = st.nextId)
    (h3 : st2.nextId = st.nextId + k) (hk : 0 < k)
    (h5 : ∀ t ∈ st2.tasks, t ∈ st.tasks ∨ t.id < st2.nextId) :
    Extends st st2 := by
  intro hf
  refine ⟨?_, ?_, ?_, ?_⟩
  · intro x hx
    rw [h1] at hx
    rcases List.mem_append.mp hx with h | h
    · exact Or.inl h
    · simp only [List.mem_singleton] at h
      subst h
      rw [h2]
      exact Or.inr (le_refl _)
  · rw [h3]
    omega
  · intro x hx
    rw [h1] at hx
    rcases List.mem_append.mp hx with h | h
    · have := hf.1 x h
      rw [h3]
      omega
    · simp only [List.mem_singleton] at h
      subst h
      rw [h2, h3]
      omega
  · intro t ht
    rcases h5 t ht with h | h
    · have := hf.2 t h
      rw [h3]
      omega
    · exact h

theorem fresh_newStepRec (st : EngineState) (execId : Nat) (nm ty : String)
    (input : JVal) (hf : Fresh st) : Fresh (st.newStepRec execId nm ty input).2 := by
  simp only [EngineState.newStepRec, EngineState.now]
  constructor
  · intro r hr
    rcases List.mem_append.mp hr with h | h
    · have := hf.1 r h
      show r.id < st.nextId + 1
      omega
    · simp only [List.mem_singleton] at h
      subst h
      show st.nextId < st.nextId + 1
      omega
  · intro t ht
    have := hf.2 t ht
    show t.id < st.nextId + 1
    omega

theorem execHttpStep_ok_eq (oc : Oracles) (execId : Nat) (name : Option String)
    (m u : String) (hd b : JVal) (ctx : List (String × JVal)) (st : EngineState)
    (result : JVal) (hok : oc.http st.httpCalls = .ok result)
    (hS : ∀ r ∈ st.stepRecs, r.id < st.nextId) :
    execHttpStep oc execId name m u hd b ctx st =
      (.ok result, httpOkState st execId name m u hd b result) := by
  have hidS : ∀ r ∈ st.stepRecs, r.id ≠ st.nextId := fun r hr => Nat.ne_of_lt (hS r hr)
  simp only [execHttpStep, hok, EngineState.newStepRec, EngineState.now,
             markStepCompleted, EngineState.updateStepRec]
  rw [List.map_append]
  rw [map_id_of_fixed st.stepRecs _ (fun r hr => if_neg (hidS r hr))]
  simp only [List.map_cons, List.map_nil, if_true]
  simp [httpOkState, doneStepRec, httpStepDict]

theorem execHttpStep_err_eq (oc : Oracles) (execId : Nat) (name : Option String)
    (m u : String) (hd b : JVal) (ctx : List (String × JVal)) (st : EngineState)
    (e : String) (hE : oc.http st.httpCalls = .error e)
    (hS : ∀ r ∈ st.stepRecs, r.id < st.nextId) :
    execHttpStep oc execId name m u hd b ctx st =
      (.err e, httpErrState st execId name m u hd b e) := by
  have hidS : ∀ r ∈ st.stepRecs, r.id ≠ st.nextId := fun r hr => Nat.ne_of_lt (hS r hr)
  simp only [execHttpStep, hE, EngineState.newStepRec, EngineState.now,
             markStepFailed, EngineState.updateStepRec]
  rw [List.map_append]
  rw [map_id_of_fixed st.stepRecs _ (fun r hr => if_neg (hidS r hr))]
  simp only [List.map_cons, List.map_nil, if_true]
  simp [httpErrState, doneStepRec, httpStepDict]

theorem httpOkState_extends (st : EngineState) (execId : Nat) (name : Option String)
    (m u : String) (hd b result : JVal) :
    Extends st (httpOkState st execId name m u hd b result) := by
  refine Extends.mk1 st _ _ 1 rfl rfl rfl (by omega) ?_
  intro t ht
  exact Or.inl ht

theorem httpErrState_extends (st : EngineState) (execId : Nat) (name : Option String)
    (m u : String) (hd b : JVal) (e : String) :
    Extends st (httpErrState st execId name m u hd b e) := by
  refine Extends.mk1 st _ _ 1 rfl rfl rfl (by omega) ?_
  intro t ht
  exact Or.inl ht

theorem execHttpStep_extends (oc : Oracles) (execId : Nat) (name : Option String)
    (m u : String) (hd b : JVal) (ctx : List (String × JVal)) (st : EngineState) :
    Extends st (execHttpStep oc execId name m u hd b ctx st).2 := by
  cases hE : oc.http st.httpCalls with
  | ok result =>
    intro hf
    rw [execHttpStep_ok_eq oc execId name m u hd b ctx st result hE hf.1]
    exact httpOkState_extends st execId name m u hd b result hf
  | error e =>
    intro hf
    rw [execHttpStep_err_eq oc execId name m u hd b ctx st e hE hf.1]
    exact httpErrState_extends st execId name m u hd b e hf

theorem execAgentStep_ok_eq (oc : Oracles) (execId : Nat) (name : Option String)
    (agentId : Nat) (input : JVal) (om : Option (List (String × String)))
    (mr : Option Nat) (ctx : List (String × JVal)) (text : String) (n : Nat)
    (st : EngineState) (hok : oc.agent st.agentCalls = .ok text)
    (hS : ∀ r ∈ st.stepRecs, r.id < st.nextId)
    (hT : ∀ t ∈ st.tasks, t.id < st.nextId) :
    (execAgentStep oc execId name agentId input om mr ctx (n + 1) st).2 =
      agentOkState st execId name agentId input text := by
  have hidS : ∀ r ∈ st.stepRecs, r.id ≠ st.nextId :=
    fun r hr => Nat.ne_of_lt (hS r hr)
  have hidT : ∀ t ∈ st.tasks, t.id ≠ st.nextId + 1 :=
    fun t ht => Nat.ne_of_lt (Nat.lt_succ_of_lt (hT t ht))
  simp only [execAgentStep, hok, EngineState.newStepRec, EngineState.newTask,
             EngineState.now, EngineState.updateTask, markStepCompleted,
             EngineState.updateStepRec]
  rw [List.map_append]
  rw [map_id_of_fixed st.stepRecs _ (fun r hr => if_neg (hidS r hr))]
  rw [List.map_append]
  rw [map_id_of_fixed st.tasks _ (fun t ht => if_neg (hidT t ht))]
  simp only [List.map_cons, List.map_nil, if_true]
  simp [agentOkState, doneStepRec, agentWrapped, okTaskRec]

theorem execAgentStep_err_eq (oc : Oracles) (execId : Nat) (name : Option String)
    (agentId : Nat) (input : JVal) (om : Option (List (String × String)))
    (mr : Option Nat) (ctx : List (String × JVal)) (e : String) (n : Nat)
    (st : EngineState) (hE : oc.agent st.agentCalls = .error e)
    (hS : ∀ r ∈ st.stepRecs, r.id < st.nextId)
    (hT : ∀ t ∈ st.tasks, t.id < st.nextId) :
    execAgentStep oc execId name agentId input om mr ctx (n + 1) st =
      if 0 < mr.getD 0 then
        execAgentStep oc execId name agentId input om mr ctx n
          (retryReentryState st execId name agentId input e)
      else (.err e, agentFailState st execId name agentId input e) := by
  have hidS : ∀ r ∈ st.stepRecs, r.id ≠ st.nextId :=
    fun r hr => Nat.ne_of_lt (hS r hr)
  have hidT : ∀ t ∈ st.tasks, t.id ≠ st.nextId + 1 :=
    fun t ht => Nat.ne_of_lt (Nat.lt_succ_of_lt (hT t ht))
  simp only [execAgentStep, hE, EngineState.newStepRec, EngineState.newTask,
             EngineState.now, EngineState.updateTask, markStepFailed,
             EngineState.updateStepRec, EngineState.findStepD]
  rw [List.map_append]
  rw [map_id_of_fixed st.stepRecs _ (fun r hr => if_neg (hidS r hr))]
  rw [List.map_append]
  rw [map_id_of_fixed st.stepRecs _ (fun r hr => if_neg (hidS r hr))]
  rw [List.map_append]
  rw [map_id_of_fixed st.tasks _ (fun t ht => if_neg (hidT t ht))]
  simp only [List.map_cons, List.map_nil, if_true]
  simp
  have hnone : List.find? (fun r => decide (r.id = st.nextId)) st.stepRecs = none :=
    List.find?_eq_none.mpr (fun x hx => by simp [hidS x hx])
  rw [hnone]
  simp only [Option.none_or, Option.getD_some]
  split
  · rfl
  · rfl

theorem execMcpToolStep_ok_eq (oc : Oracles) (execId : Nat) (name : Option String)
    (serverId : Nat) (toolName : String) (input : JVal) (mr : Option Nat)
    (ctx : List (String × JVal)) (result : JVal) (n : Nat) (st : EngineState)
    (hok : oc.tool st.toolCalls = .ok result)
    (hS : ∀ r ∈ st.stepRecs, r.id < st.nextId) :
    execMcpToolStep oc execId name serverId toolName input mr ctx (n + 1) st =
      (.ok result, mcpOkState st execId name input result) := by
  have hidS : ∀ r ∈ st.stepRecs, r.id ≠ st.nextId :=
    fun r hr => Nat.ne_of_lt (hS r hr)
  simp only [execMcpToolStep, hok, EngineState.newStepRec, EngineState.now,
             markStepCompleted, EngineState.updateStepRec]
  rw [List.map_append]
  rw [map_id_of_fixed st.stepRecs _ (fun r hr => if_neg (hidS r hr))]
  simp only [List.map_cons, List.map_nil, if_true]
  simp [mcpOkState, doneStepRec]

theorem execMcpToolStep_err_eq (oc : Oracles) (execId : Nat) (name : Option String)
    (serverId : Nat) (toolName : String) (input : JVal) (mr : Option Nat)
    (ctx : List (String × JVal)) (e : String) (n : Nat) (st : EngineState)
    (hE : oc.tool st.toolCalls = .error e)
    (hS : ∀ r ∈ st.stepRecs, r.id < st.nextId) :
    execMcpToolStep oc execId name serverId toolName input mr ctx (n + 1) st =
      if 0 < mr.getD 0 then
        execMcpToolStep oc execId name serverId toolName input mr ctx n
          (mcpErrState st execId name input e 1)
      else (.err e, mcpErrState st execId name input e 0) := by
  have hidS : ∀ r ∈ st.stepRecs, r.id ≠ st.nextId :=
    fun r hr => Nat.ne_of_lt (hS r hr)
  simp only [execMcpToolStep, hE, EngineState.newStepRec, EngineState.now,
             markStepFailed, EngineState.updateStepRec, EngineState.findStepD]
  rw [List.map_append]
  rw [map_id_of_fixed st.stepRecs _ (fun r hr => if_neg (hidS r hr))]
  rw [List.map_append]
  rw [map_id_of_fixed st.stepRecs _ (fun r hr => if_neg (hidS r hr))]
  simp only [List.map_cons, List.map_nil, if_true]
  simp
  have hnone : List.find? (fun r => decide (r.id = st.nextId)) st.stepRecs = none :=
    List.find?_eq_none.mpr (fun x hx => by simp [hidS x hx])
  rw [hnone]
  simp only [Option.none_or, Option.getD_some]
  split
  · rfl
  · rfl
theorem agentOkState_extends (st : EngineState) (execId : Nat) (name : Option String)
    (agentId : Nat) (input : JVal) (text : String) :
    Extends st (agentOkState st execId name agentId input text) := by
  refine Extends.mk1 st _ _ 2 rfl rfl rfl (by omega) ?_
  intro t ht
  rcases List.mem_append.mp ht with h | h
  · exact Or.inl h
  · simp only [List.mem_singleton] at h
    subst h
    right
    show st.nextId + 1 < st.nextId + 2
    omega

theorem agentFailState_extends (st : EngineState) (execId : Nat) (name : Option String)
    (agentId : Nat) (input : JVal) (emsg : String) :
    Extends st (agentFailState st execId name agentId input emsg) := by
  refine Extends.mk1 st _ _ 2 rfl rfl rfl (by omega) ?_
  intro t ht
  rcases List.mem_append.mp ht with h | h
  · exact Or.inl h
  · simp only [List.mem_singleton] at h
    subst h
    right
    show st.nextId + 1 < st.nextId + 2
    omega

theorem retryReentryState_extends (st : EngineState) (execId : Nat)
    (name : Option String) (agentId : Nat) (input : JVal) (emsg : String) :
    Extends st (retryReentryState st execId name agentId input emsg) := by
  refine Extends.mk1 st _ _ 2 rfl rfl rfl (by omega) ?_
  intro t ht
  rcases List.mem_append.mp ht with h | h
  · exact Or.inl h
  · simp only [List.mem_singleton] at h
    subst h
    right
    show st.nextId + 1 < st.nextId + 2
    omega

theorem mcpOkState_extends (st : EngineState) (execId : Nat) (name : Option String)
    (input result : JVal) : Extends st (mcpOkState st execId name input result) := by
  refine Extends.mk1 st _ _ 1 rfl rfl rfl (by omega) ?_
  intro t ht
  exact Or.inl ht

theorem mcpErrState_extends (st : EngineState) (execId : Nat) (name : Option String)
    (input : JVal) (emsg : String) (retry : Nat) :
    Extends st (mcpErrState st execId name input emsg retry) := by
  refine Extends.mk1 st _ _ 1 rfl rfl rfl (by omega) ?_
  intro t ht
  exact Or.inl ht

theorem execAgentStep_extends (oc : Oracles) (execId : Nat) (name : Option String)
    (agentId : Nat) (input : JVal) (om : Option (List (String × String)))
    (mr : Option Nat) (ctx : List (String × JVal)) :
    ∀ fuel st, Extends st (execAgentStep oc execId name agentId input om mr ctx fuel st).2 := by
  intro fuel
  induction fuel with
  | zero =>
    intro st hf
    exact ⟨fun r hr => Or.inl hr, le_refl _, hf⟩
  | succ n ih =>
    intro st
    cases hE : oc.agent st.agentCalls with
    | ok text =>
      intro hf
      rw [execAgentStep_ok_eq oc execId name agentId input om mr ctx text n st hE
        hf.1 hf.2]
      exact agentOkState_extends st execId name agentId input text hf
    | error e =>
      intro hf
      rw [execAgentStep_err_eq oc execId name agentId input om mr ctx e n st hE
        hf.1 hf.2]
      split
      · exact (Extends.trans
          (retryReentryState_extends st execId name agentId input e)
          (ih (retryReentryState st execId name agentId input e))) hf
      · exact agentFailState_extends st execId name agentId input e hf

theorem execMcpToolStep_extends (oc : Oracles) (execId : Nat) (name : Option String)
    (serverId : Nat) (toolName : String) (input : JVal) (mr : Option Nat)
    (ctx : List (String × JVal)) :
    ∀ fuel st,
      Extends st (execMcpToolStep oc execId name serverId toolName input mr ctx fuel st).2 := by
  intro fuel
  induction fuel with
  | zero =>
    intro st hf
    exact ⟨fun r hr => Or.inl hr, le_refl _, hf⟩
  | succ n ih =>
    intro st
    cases hE : oc.tool st.toolCalls with
    | ok result =>
      intro hf
      rw [execMcpToolStep_ok_eq oc execId name serverId toolName input mr ctx result
        n st hE hf.1]
      exact mcpOkState_extends st execId name input result hf
    | error e =>
      intro hf
      rw [execMcpToolStep_err_eq oc execId name serverId toolName input mr ctx e n st
        hE hf.1]
      split
      · exact (Extends.trans
          (mcpErrState_extends st execId name input e 1)
          (ih (mcpErrState st execId name input e 1))) hf
      · exact mcpErrState_extends st execId name input e 0 hf

theorem execSingleStep_extends (oc : Oracles) (execId : Nat)
    (ctx : List (String × JVal)) (fuel : Nat) (st : EngineState) (s : StepDef) :
    Extends st (execSingleStep oc execId ctx fuel st s).2 := by
  cases s with
  | agent n a i om mr => exact execAgentStep_extends oc execId n a i om mr ctx fuel st
  | mcpTool n sv tn i mr =>
    exact execMcpToolStep_extends oc execId n sv tn i mr ctx fuel st
  | http n m u hd b => exact execHttpStep_extends oc execId n m u hd b ctx st
  | parallel n ss w => exact fun hf => ⟨fun r hr => Or.inl hr, le_refl _, hf⟩
  | conditional n c t f => exact fun hf => ⟨fun r hr => Or.inl hr, le_refl _, hf⟩
  | other n ty => exact fun hf => ⟨fun r hr => Or.inl hr, le_refl _, hf⟩

theorem runParallelTasks_extends (oc : Oracles) (execId : Nat)
    (ctx : List (String × JVal)) (fuel : Nat) :
    ∀ steps st, Extends st (runParallelTasks oc execId ctx fuel steps st).2 := by
  intro steps
  induction steps with
  | nil =>
    intro st hf
    exact ⟨fun r hr => Or.inl hr, le_refl _, hf⟩
  | cons s rest ih =>
    intro st
    rcases h1 : execSingleStep oc execId ctx fuel st s with ⟨res, st1⟩
    have hx : Extends st st1 := by
      have h := execSingleStep_extends oc execId ctx fuel st s
      rw [h1] at h
      exact h
    cases res with
    | ok v =>
      rcases h2 : runParallelTasks oc execId ctx fuel rest st1 with ⟨res2, st2⟩
      have hy : Extends st1 st2 := by
        have h := ih st1
        rw [h2] at h
        exact h
      have heq : (runParallelTasks oc execId ctx fuel (s :: rest) st).2 = st2 := by
        simp only [runParallelTasks, h1, h2]
        cases res2 <;> rfl
      rw [heq]
      exact Extends.trans hx hy
    | err e =>
      rcases h2 : runParallelTasks oc execId ctx fuel rest st1 with ⟨res2, st2⟩
      have hy : Extends st1 st2 := by
        have h := ih st1
        rw [h2] at h
        exact h
      have heq : (runParallelTasks oc execId ctx fuel (s :: rest) st).2 = st2 := by
        simp only [runParallelTasks, h1, h2]
        cases res2 <;> rfl
      rw [heq]
      exact Extends.trans hx hy
    | timeout =>
      have heq : (runParallelTasks oc execId ctx fuel (s :: rest) st).2 = st1 := by
        simp only [runParallelTasks, h1]
      rw [heq]
      exact hx
theorem filterMap_err_map_ok (vs : List JVal) :
    (vs.map Except.ok).filterMap
      (fun r => match r with | .error e => some e | .ok _ => none) =
      ([] : List String) := by
  induction vs with
  | nil => rfl
  | cons v rest ih =>
    simp only [List.map_cons, List.filterMap_cons]
    exact ih

theorem combineParallel_aux (vs : List JVal) :
    ∀ k, ((vs.map Except.ok).enumFrom k).filterMap
      (fun (p : Nat × Except String JVal) => match p.2 with
        | .ok v => some ("step_" ++ toString p.1, v)
        | .error _ => none) =
      (vs.enumFrom k).map (fun p => ("step_" ++ toString p.1, p.2)) := by
  induction vs with
  | nil => intro k; rfl
  | cons v rest ih =>
    intro k
    simp only [List.map_cons, List.enumFrom, List.filterMap_cons]
    exact congrArg _ (ih (k + 1))

theorem combineParallel_map_ok (vs : List JVal) :
    combineParallel (vs.map Except.ok) =
      .obj (vs.enum.map (fun p => ("step_" ++ toString p.1, p.2))) :=
  congrArg JVal.obj (combineParallel_aux vs 0)

theorem execParallelStep_all_ok (oc : Oracles) (execId : Nat) (name : Option String)
    (steps : List StepDef) (ctx : List (String × JVal)) (fuel : Nat)
    (st : EngineState) (vs : List JVal) (st2 : EngineState)
    (hrun : runParallelTasks oc execId ctx fuel steps
      (st.newStepRec execId (name.getD "unnamed_step") "parallel"
        (.obj [("wait_for", .str "all")])).2 = (.ok (vs.map Except.ok), st2)) :
    execParallelStep oc execId name steps (some "all") ctx fuel st =
      (.ok (.obj (vs.enum.map (fun p => ("step_" ++ toString p.1, p.2)))),
       markStepCompleted st2 st.nextId
         (.obj (vs.enum.map (fun p => ("step_" ++ toString p.1, p.2))))) := by
  simp only [execParallelStep, Option.getD_some, if_true]
  rw [hrun]
  dsimp only
  rw [filterMap_err_map_ok]
  rw [if_neg (fun h => h rfl)]
  rw [combineParallel_map_ok]
  rfl

theorem execParallelStep_all_err (oc : Oracles) (execId : Nat) (name : Option String)
    (steps : List StepDef) (ctx : List (String × JVal)) (fuel : Nat)
    (st : EngineState) (results : List (Except String JVal)) (st2 : EngineState)
    (hfresh : Fresh st)
    (hrun : runParallelTasks oc execId ctx fuel steps
      (st.newStepRec execId (name.getD "unnamed_step") "parallel"
        (.obj [("wait_for", .str "all")])).2 = (.ok results, st2))
    (hne : results.filterMap
      (fun r => match r with | .error e => some e | .ok _ => none) ≠ []) :
    (execParallelStep oc execId name steps (some "all") ctx fuel st).1 =
      .err ("Parallel execution failed: " ++ renderErrors (results.filterMap
        (fun r => match r with | .error e => some e | .ok _ => none))) ∧
    ∀ r ∈ st2.stepRecs, r.status = "completed" →
      r ∈ (execParallelStep oc execId name steps (some "all") ctx fuel st).2.stepRecs := by
  have heq : execParallelStep oc execId name steps (some "all") ctx fuel st =
      (.err ("Parallel execution failed: " ++ renderErrors (results.filterMap
        (fun r => match r with | .error e => some e | .ok _ => none))),
       markStepFailed st2 st.nextId
         ("Parallel execution failed: " ++ renderErrors (results.filterMap
           (fun r => match r with | .error e => some e | .ok _ => none)))) := by
    simp only [execParallelStep, Option.getD_some, if_true]
    rw [hrun]
    dsimp only
    rw [if_pos hne]
    rfl
  refine ⟨by rw [heq], ?_⟩
  intro r hr hcomp
  rw [heq]
  simp only [markStepFailed, EngineState.now, EngineState.updateStepRec]
  have hid : r.id ≠ st.nextId := by
    have hf1 : Fresh (st.newStepRec execId (name.getD "unnamed_step") "parallel"
        (.obj [("wait_for", .str "all")])).2 :=
      fresh_newStepRec st execId _ _ _ hfresh
    have hext := runParallelTasks_extends oc execId ctx fuel steps
      (st.newStepRec execId (name.getD "unnamed_step") "parallel"
        (.obj [("wait_for", .str "all")])).2
    rw [hrun] at hext
    obtain ⟨hmem, hle, hfr⟩ := hext hf1
    rcases hmem r hr with h | h
    · rcases List.mem_append.mp h with h2 | h2
      · exact Nat.ne_of_lt (hfresh.1 r h2)
      · simp only [List.mem_singleton] at h2
        subst h2
        simp at hcomp
    · have h3 : st.nextId + 1 ≤ r.id := h
      omega
  refine List.mem_map.mpr ⟨r, hr, ?_⟩
  exact if_neg hid
/-- C5: for parallel steps under wait_for all — (1) whenever the gather
over the sub-steps returns only successes, the parallel step output is the
dict keyed step_0 .. step_(n-1) by positional index in declaration order
and the parallel row is marked completed; (2) whenever any sub-task
errored, the parallel step fails with the aggregate Parallel execution
failed error, and every sub-step row that completed keeps its completed
record in the final state; (3) the fixture workflow of three succeeding
agent sub-steps completes its execution. -/
theorem c5_parallel_all (oc : Oracles) (execId : Nat) (name : Option String)
    (steps : List StepDef) (ctx : List (String × JVal)) (fuel : Nat)
    (st : EngineState) (hfresh : Fresh st) :
    (∀ (vs : List JVal) (st2 : EngineState),
      runParallelTasks oc execId ctx fuel steps
        (st.newStepRec execId (name.getD "unnamed_step") "parallel"
          (.obj [("wait_for", .str "all")])).2 = (.ok (vs.map Except.ok), st2) →
      execParallelStep oc execId name steps (some "all") ctx fuel st =
        (.ok (.obj (vs.enum.map (fun p => ("step_" ++ toString p.1, p.2)))),
         markStepCompleted st2 st.nextId
           (.obj (vs.enum.map (fun p => ("step_" ++ toString p.1, p.2)))))) ∧
    (∀ (results : List (Except String JVal)) (st2 : EngineState),
      runParallelTasks oc execId ctx fuel steps
        (st.newStepRec execId (name.getD "unnamed_step") "parallel"
          (.obj [("wait_for", .str "all")])).2 = (.ok results, st2) →
      results.filterMap
        (fun r => match r with | .error e => some e | .ok _ => none) ≠ [] →
      (execParallelStep oc execId name steps (some "all") ctx fuel st).1 =
        .err ("Parallel execution failed: " ++ renderErrors (results.filterMap
          (fun r => match r with | .error e => some e | .ok _ => none))) ∧
      ∀ r ∈ st2.stepRecs, r.status = "completed" →
        r ∈ (execParallelStep oc execId name steps (some "all") ctx fuel st).2.stepRecs) ∧
    resStatus (executeWorkflow ocOk 1 12 (.obj []) none 1 stPar).1 = "completed" := by
  refine ⟨?_, ?_, ?_⟩
  · intro vs st2 hrun
    exact execParallelStep_all_ok oc execId name steps ctx fuel st vs st2 hrun
  · intro results st2 hrun hne
    exact execParallelStep_all_err oc execId name steps ctx fuel st results st2
      hfresh hrun hne
  · rfl

theorem c5_parallel_all_witness :
    Fresh stPar ∧
    (execParallelStep ocOk 7 (some "par")
      [.agent (some "a0") 1 (.obj []) none none,
       .agent (some "a1") 2 (.obj []) none none,
       .agent (some "a2") 3 (.obj []) none none] (some "all") [] 1 stPar).1 =
      .ok (.obj
        [("step_0", .obj [("response", .str "resp0"), ("task_id", .str "2")]),
         ("step_1", .obj [("response", .str "resp1"), ("task_id", .str "4")]),
         ("step_2", .obj [("response", .str "resp2"), ("task_id", .str "6")])]) := by
  have hfresh : Fresh stPar := ⟨(fun r hr => nomatch hr), (fun t ht => nomatch ht)⟩
  refine ⟨hfresh, ?_⟩
  have h2 := (c5_parallel_all ocOk 7 (some "par")
    [.agent (some "a0") 1 (.obj []) none none,
     .agent (some "a1") 2 (.obj []) none none,
     .agent (some "a2") 3 (.obj []) none none] [] 1 stPar hfresh).1
    [.obj [("response", .str "resp0"), ("task_id", .str "2")],
     .obj [("response", .str "resp1"), ("task_id", .str "4")],
     .obj [("response", .str "resp2"), ("task_id", .str "6")]] _ rfl
  rw [h2]
  rfl


/-- C2 (amended): _execute_single_step dispatches only the agent, mcp_tool
and http step kinds to their executors; a parallel or conditional step
appearing as a nested step is not dispatched recursively but rejected with
the Unknown step type error, leaving the state unchanged. -/
theorem c2_nested_dispatch_amended (oc : Oracles) (execId : Nat)
    (ctx : List (String × JVal)) (fuel : Nat) (st : EngineState) :
    (∀ n a i om mr, execSingleStep oc execId ctx fuel st (.agent n a i om mr) =
        execAgentStep oc execId n a i om mr ctx fuel st) ∧
    (∀ n sv tn i mr, execSingleStep oc execId ctx fuel st (.mcpTool n sv tn i mr) =
        execMcpToolStep oc execId n sv tn i mr ctx fuel st) ∧
    (∀ n m u hd b, execSingleStep oc execId ctx fuel st (.http n m u hd b) =
        execHttpStep oc execId n m u hd b ctx st) ∧
    (∀ n ss w, execSingleStep oc execId ctx fuel st (.parallel n ss w) =
        (.err "Unknown step type: parallel", st)) ∧
    (∀ n c t f, execSingleStep oc execId ctx fuel st (.conditional n c t f) =
        (.err "Unknown step type: conditional", st)) :=
  ⟨fun _ _ _ _ _ => rfl, fun _ _ _ _ _ => rfl, fun _ _ _ _ _ => rfl,
   fun _ _ _ => rfl, fun _ _ _ _ => rfl⟩

/-- C2 counterexample to the original claim: a conditional step nested
inside a parallel group is not executed recursively — the gather captures
the Unknown step type error and the parallel step fails with it — and a
parallel step handed to the nested dispatcher is rejected outright. -/
theorem c2_nested_rejected_counterexample :
    (execParallelStep ocOk 1 (some "p")
      [.conditional (some "c") (some "$.x > 1") none none] (some "all") [] 5 st0).1 =
      .err ("Parallel execution failed: " ++
        renderErrors ["Unknown step type: conditional"]) ∧
    (execSingleStep ocOk 1 [] 5 st0 (.parallel (some "q") [] (some "all"))).1 =
      .err "Unknown step type: parallel" :=
  ⟨rfl, rfl⟩

end WfEngine
